import Mathlib

/-!
# ninutils: the DOL container reader (`src/dol.cpp`, `include/ninutils/dol.hpp`)

A shallow embedding of `DolHeaderRaw::DolHeaderRaw`, `Dol::setSectionName` and
`Dol::Dol`, followed by the properties of the specification checked against it.

Conventions of the embedding

* A byte buffer (`uint8_t*`) is a `List Nat`; a byte read is taken `% 256`.
  The list's length is the extent of the allocation behind the pointer.
* `uint32_t` and `uint8_t` values are `Nat`; where the source computes in
  `uint8_t` the result is reduced `% 256`.
* A `std::array` / `std::vector` is a `List`.
* Code whose behaviour C++ leaves undefined, or which the sources at hand do not
  determine, returns `Except.error` with the `Fault` that says which.
-/

set_option maxRecDepth 100000

namespace ninutils

/-! ## Constants -/

def DOL_MAX_TEXT_SECTION_COUNT : Nat := 7

def DOL_MAX_DATA_SECTION_COUNT : Nat := 11

def DOL_MAX_SECTION_COUNT : Nat := 18

def DEF_DOL_TEXT_SECTION_NAME : String := ".text"

def DEF_DOL_DATA_SECTION_NAME : String := ".data"

def DEF_DOL_BSS_SECTION_NAME : String := ".bss"

def DOLHDR_OFFSETS_OFF : Nat := 0x0

def DOLHDR_OFFSET_SIZE : Nat := 0x4

def DOLHDR_ADDRESSES_OFF : Nat := 0x48

def DOLHDR_ADDRESS_SIZE : Nat := 0x4

def DOLHDR_SIZES_OFF : Nat := 0x90

def DOLHDR_SIZE_SIZE : Nat := 0x4

def DOLHDR_BSSADDR_OFF : Nat := 0xd8

def DOLHDR_BSSLEN_OFF : Nat := 0xdc

def DOLHDR_ENTRYPOINT_OFF : Nat := 0xe0

/-- The fixed extent of the header: the entry-point field at `0xe0` plus its four bytes. -/
def DOLHDR_EXTENT : Nat := DOLHDR_ENTRYPOINT_OFF + 4

/-! ## Outcomes -/

/-- Ways in which a run of the embedded code does not produce a value.

* `outOfBounds a`: a read at index `a` that lies outside the buffer or vector
  (undefined behaviour in C++);
* `nullPointer`: a write through a null pointer (undefined behaviour in C++);
* `missingEntry j`: `sections[j]` was evaluated on a naming source that has no
  entry `j`; what that yields is fixed by `extra_info.hpp`, which is not among
  the sources;
* `truncatedInput`: the error the specification names for a short buffer. It is
  listed so that statements about it can be written; no path of the embedded
  code raises it, as no statement of `dol.cpp` does. -/
inductive Fault where
  | outOfBounds (index : Nat)
  | nullPointer
  | missingEntry (index : Nat)
  | truncatedInput
  deriving DecidableEq, Repr

/-! ## Byte reads -/

/-- The big-endian value of four bytes. -/
def be32 (b0 b1 b2 b3 : Nat) : Nat :=
  (b0 % 256) * 2 ^ 24 + (b1 % 256) * 2 ^ 16 + (b2 % 256) * 2 ^ 8 + (b3 % 256)

/-- Modelled from the spec: `readbe32` of `ninutils/utils.hpp`, which is not among
the sources. The spec has every header field read as a "4-byte big-endian
unsigned integer"; the read of four bytes at `p` is in bounds when
`p + 4 ≤ dol.length`. -/
def readbe32 (dol : List Nat) (p : Nat) : Except Fault Nat :=
  if p + 4 ≤ dol.length then
    .ok (be32 (dol.getD p 0) (dol.getD (p + 1) 0) (dol.getD (p + 2) 0) (dol.getD (p + 3) 0))
  else
    .error (.outOfBounds p)

/-! ## `DolHeaderRaw` -/

structure DolHeaderRaw where
  offsets : List Nat
  addresses : List Nat
  lengths : List Nat
  bss_address : Nat
  bss_length : Nat
  entry_point : Nat
  deriving DecidableEq, Repr

/-- The loop of `DolHeaderRaw::DolHeaderRaw` run for `i = 0 .. n-1`: the three
arrays filled so far. Iteration `i` reads `offsets[i]`, `addresses[i]`,
`lengths[i]` in that order. -/
def DolHeaderRaw.readSlots (dol : List Nat) : Nat → Except Fault (List Nat × List Nat × List Nat)
  | 0 => .ok ([], [], [])
  | i + 1 => do
    let (os, as, ls) ← DolHeaderRaw.readSlots dol i
    let o ← readbe32 dol (DOLHDR_OFFSETS_OFF + i * DOLHDR_OFFSET_SIZE)
    let a ← readbe32 dol (DOLHDR_ADDRESSES_OFF + i * DOLHDR_ADDRESS_SIZE)
    let l ← readbe32 dol (DOLHDR_SIZES_OFF + i * DOLHDR_SIZE_SIZE)
    .ok (os ++ [o], as ++ [a], ls ++ [l])

/-- The constructor `DolHeaderRaw::DolHeaderRaw(uint8_t* dol)`. It takes no length. -/
def DolHeaderRaw.decode (dol : List Nat) : Except Fault DolHeaderRaw := do
  let (os, as, ls) ← DolHeaderRaw.readSlots dol DOL_MAX_SECTION_COUNT
  let bss_address ← readbe32 dol DOLHDR_BSSADDR_OFF
  let bss_length ← readbe32 dol DOLHDR_BSSLEN_OFF
  let entry_point ← readbe32 dol DOLHDR_ENTRYPOINT_OFF
  .ok { offsets := os, addresses := as, lengths := ls,
        bss_address := bss_address, bss_length := bss_length, entry_point := entry_point }

/-! ## `DolSection` -/

structure DolSection where
  offset : Nat
  address : Nat
  length : Nat
  isText : Bool
  name : String
  deriving DecidableEq, Repr

/-- The constructor `DolSection::DolSection(offset, address, length, text)`; `name`
starts empty. -/
def DolSection.new (offset address length : Nat) (text : Bool) : DolSection :=
  { offset := offset, address := address, length := length, isText := text, name := "" }

/-- The method `DolSection::isBss()`: constantly false. -/
def DolSection.isBss (_s : DolSection) : Bool := false

/-! ## The naming source -/

/-- Modelled from the spec: one module of the naming source (`extra_info.hpp` is not
among the sources). Within a module the source maps a zero-based section index
to a name, "yielding an optional name string". -/
structure ModuleInfo where
  sections : Nat → Option String

/-- Modelled from the spec: `ExtraInfo` (`extra_info.hpp` is not among the sources):
"an optional mapping, keyed by a module identifier". `modules k = none` is
`modules.find(k) == modules.end()`. -/
structure ExtraInfo where
  modules : Nat → Option ModuleInfo

/-! ## `Dol` -/

/-- One iteration `i` of the counting loop of `Dol::setSectionName`, on the pair
`(similarSectionTypeCount, sectionTypeIdx)`; both are `uint8_t`. -/
def Dol.countStep (secs : List DolSection) (sec : Nat) (cur : DolSection)
    (acc : Nat × Nat) (i : Nat) : Nat × Nat :=
  if i = sec then acc
  else
    match secs[i]? with
    | none => acc
    | some s =>
      if s.isText = cur.isText ∧ s.isBss = cur.isBss then
        ((acc.1 + 1) % 256, if i < sec then (acc.2 + 1) % 256 else acc.2)
      else acc

/-- The counting loop of `Dol::setSectionName` (`for i = 0 .. secs.size()-1`). -/
def Dol.countSimilar (secs : List DolSection) (sec : Nat) (cur : DolSection) : Nat × Nat :=
  (List.range secs.length).foldl (Dol.countStep secs sec cur) (0, 0)

/-- The local `sectionBaseName` of `Dol::setSectionName` (lines 54-61) for
`secs[sec] = cur`. It is assigned and never read. -/
def Dol.sectionBaseName (cur : DolSection) : String :=
  if cur.isText then DEF_DOL_TEXT_SECTION_NAME
  else if cur.isBss then DEF_DOL_DATA_SECTION_NAME
  else DEF_DOL_BSS_SECTION_NAME

/-- The generated default name of `Dol::setSectionName` for `secs[sec] = cur`
(lines 43-53 and 62-67). The name is formed from the two literal tokens and the
counter; `sectionBaseName` does not occur in it. -/
def Dol.defaultName (secs : List DolSection) (sec : Nat) (cur : DolSection) : String :=
  let similarSectionTypeCount := (Dol.countSimilar secs sec cur).1
  if similarSectionTypeCount = 0 then
    (if cur.isText then DEF_DOL_TEXT_SECTION_NAME else DEF_DOL_DATA_SECTION_NAME)
  else
    (if cur.isText then DEF_DOL_TEXT_SECTION_NAME else DEF_DOL_DATA_SECTION_NAME)
      ++ toString (similarSectionTypeCount + 1)

/-- The method `Dol::setSectionName(uint8_t sec, std::optional<ExtraInfo> extra_info)`, on the
section list `secs`; returns the list with `secs[sec].name` assigned. -/
def Dol.setSectionName (secs : List DolSection) (sec : Nat) (extra_info : Option ExtraInfo) :
    Except Fault (List DolSection) :=
  match secs[sec]? with
  | none => .error (.outOfBounds sec)
  | some cur =>
    match extra_info.bind (fun e => e.modules 0) with
    | some m =>
      match m.sections sec with
      | some nm => .ok (secs.set sec { cur with name := nm })
      | none => .error (.missingEntry sec)
    | none => .ok (secs.set sec { cur with name := Dol.defaultName secs sec cur })

/-- The body of the slot loop of `Dol::Dol` for slot `i`. -/
def Dol.addSlot (hdr : DolHeaderRaw) (extra_info : Option ExtraInfo)
    (secs : List DolSection) (i : Nat) : Except Fault (List DolSection) :=
  if hdr.offsets.getD i 0 ≠ 0 ∧ hdr.addresses.getD i 0 ≠ 0 ∧ hdr.lengths.getD i 0 ≠ 0 then
    let secs1 := secs ++ [DolSection.new (hdr.offsets.getD i 0) (hdr.addresses.getD i 0)
      (hdr.lengths.getD i 0) (decide (i < 7))]
    Dol.setSectionName secs1 ((secs1.length - 1) % 256) extra_info
  else
    .ok secs

/-- The slot loop of `Dol::Dol` run for `i = 0 .. n-1`. -/
def Dol.buildSecs (hdr : DolHeaderRaw) (extra_info : Option ExtraInfo) :
    Nat → Except Fault (List DolSection)
  | 0 => .ok []
  | i + 1 => do
    let secs ← Dol.buildSecs hdr extra_info i
    Dol.addSlot hdr extra_info secs i

/-- The section list after the loop of `Dol::Dol` (lines 71-78). -/
def Dol.sections (hdr : DolHeaderRaw) (extra_info : Option ExtraInfo) :
    Except Fault (List DolSection) :=
  Dol.buildSecs hdr extra_info DOL_MAX_SECTION_COUNT

/-- The call `memcpy(dst, src, n)` where `dst` is a possibly null pointer to a buffer of
its own; the result is the content of that buffer after the copy. -/
def memcpy (dst : Option (List Nat)) (src : List Nat) (n : Nat) :
    Except Fault (Option (List Nat)) :=
  match dst with
  | none => .error .nullPointer
  | some d =>
    if n ≤ src.length ∧ n ≤ d.length then .ok (some (src.take n ++ d.drop n))
    else .error (.outOfBounds (min src.length d.length))

structure Dol where
  hdr : DolHeaderRaw
  secs : List DolSection
  file : Option (List Nat)
  fileSize : Nat
  deriving DecidableEq, Repr

/-- The constructor `Dol::Dol` up to and including `secs.shrink_to_fit()` (lines 70-78): the member
initialisers `hdr(dol)`, `fileSize(size)`, the default initialiser
`file = nullptr`, and the slot loop. No statement assigns `file`. -/
def Dol.build (dol : List Nat) (size : Nat) (extra_info : Option ExtraInfo) :
    Except Fault Dol := do
  let hdr ← DolHeaderRaw.decode dol
  let secs ← Dol.sections hdr extra_info
  .ok { hdr := hdr, secs := secs, file := none, fileSize := size }

/-- The constructor `Dol::Dol(uint8_t* dol, size_t size, std::optional<ExtraInfo> extra_info)`:
`Dol.build` followed by `memcpy(file, dol, size)`. -/
def Dol.construct (dol : List Nat) (size : Nat) (extra_info : Option ExtraInfo) :
    Except Fault Dol := do
  let d ← Dol.build dol size extra_info
  let file ← memcpy d.file dol size
  .ok { d with file := file }

/-! ## Reference notions used to state the properties -/

/-- The big-endian value of the four bytes of `dol` at `p .. p+3`. -/
def be32At (dol : List Nat) (p : Nat) : Nat :=
  be32 (dol.getD p 0) (dol.getD (p + 1) 0) (dol.getD (p + 2) 0) (dol.getD (p + 3) 0)

/-- Slot `i` is live: offset, address and length are all non-zero. -/
def DolHeaderRaw.live (h : DolHeaderRaw) (i : Nat) : Bool :=
  decide (h.offsets.getD i 0 ≠ 0) && decide (h.addresses.getD i 0 ≠ 0) &&
    decide (h.lengths.getD i 0 ≠ 0)

/-- The live slot indices among `0 .. n-1`, in increasing order. -/
def DolHeaderRaw.liveBelow (h : DolHeaderRaw) (n : Nat) : List Nat :=
  (List.range n).filter h.live

/-- The live slot indices among `0 .. 17`, in increasing order. -/
def DolHeaderRaw.liveSlots (h : DolHeaderRaw) : List Nat :=
  h.liveBelow DOL_MAX_SECTION_COUNT

/-- The triple `(offsets[i], addresses[i], lengths[i])` of the header. -/
def DolHeaderRaw.slotTriple (h : DolHeaderRaw) (i : Nat) : Nat × Nat × Nat :=
  (h.offsets.getD i 0, h.addresses.getD i 0, h.lengths.getD i 0)

/-- The base token of a classification. -/
def baseName (isText : Bool) : String :=
  if isText then DEF_DOL_TEXT_SECTION_NAME else DEF_DOL_DATA_SECTION_NAME

/-- The name of the `k`-th section of a classification, `k` counted from 1. -/
def ordinalName (isText : Bool) (k : Nat) : String :=
  if k = 1 then baseName isText else baseName isText ++ toString k

/-! ## Further reference notions and sample inputs -/

/-- The header a buffer of at least `0xE4` bytes decodes to. -/
def headerOf (dol : List Nat) : DolHeaderRaw :=
  { offsets := (List.range DOL_MAX_SECTION_COUNT).map
      (fun i => be32At dol (DOLHDR_OFFSETS_OFF + i * DOLHDR_OFFSET_SIZE)),
    addresses := (List.range DOL_MAX_SECTION_COUNT).map
      (fun i => be32At dol (DOLHDR_ADDRESSES_OFF + i * DOLHDR_ADDRESS_SIZE)),
    lengths := (List.range DOL_MAX_SECTION_COUNT).map
      (fun i => be32At dol (DOLHDR_SIZES_OFF + i * DOLHDR_SIZE_SIZE)),
    bss_address := be32At dol DOLHDR_BSSADDR_OFF,
    bss_length := be32At dol DOLHDR_BSSLEN_OFF,
    entry_point := be32At dol DOLHDR_ENTRYPOINT_OFF }

/-- The number of sections of `secs` with the classification `b`. -/
def sameKind (b : Bool) (secs : List DolSection) : Nat :=
  secs.countP (fun s => s.isText == b)

/-- The name `Dol::setSectionName` assigns to `secs[sec] = cur`. -/
def nameFor (extra_info : Option ExtraInfo) (secs : List DolSection) (sec : Nat)
    (cur : DolSection) : Except Fault String :=
  match extra_info.bind (fun e => e.modules 0) with
  | some m =>
    match m.sections sec with
    | some nm => .ok nm
    | none => .error (.missingEntry sec)
  | none => .ok (Dol.defaultName secs sec cur)

/-- The section built from slot `i`, named `nm`. -/
def slotSection (h : DolHeaderRaw) (i : Nat) (nm : String) : DolSection :=
  { offset := h.offsets.getD i 0, address := h.addresses.getD i 0,
    length := h.lengths.getD i 0, isText := decide (i < 7), name := nm }

/-- The value of a decimal digit character. -/
def digitVal (c : Char) : Nat := c.toNat - 48

/-- The number a list of decimal digit characters denotes, continuing from `acc`. -/
def decimalValue (acc : Nat) (cs : List Char) : Nat :=
  cs.foldl (fun a c => a * 10 + digitVal c) acc

/-- The sections of slots `0 .. n-1` with every name generated: the `k`-th
section of a classification is given `ordinalName` of `k`. -/
def defaultSecs (h : DolHeaderRaw) : Nat → List DolSection
  | 0 => []
  | i + 1 =>
    if h.live i then
      defaultSecs h i ++ [slotSection h i
        (ordinalName (decide (i < 7)) (sameKind (decide (i < 7)) (defaultSecs h i) + 1))]
    else defaultSecs h i

/-- A buffer of exactly `0xE4` bytes whose slots 0, 1 and 8 are live (each of
their fields is 1) and whose other fields are zero. -/
def sampleDol : List Nat :=
  (List.range 228).map (fun i => if i ∈ [3, 7, 35, 75, 79, 107, 147, 151, 179] then 1 else 0)

/-- The header `sampleDol` decodes to: slots 0, 1 and 8 live. -/
def sampleHdr : DolHeaderRaw :=
  { offsets := [1, 1, 0, 0, 0, 0, 0, 0, 1, 0, 0, 0, 0, 0, 0, 0, 0, 0],
    addresses := [1, 1, 0, 0, 0, 0, 0, 0, 1, 0, 0, 0, 0, 0, 0, 0, 0, 0],
    lengths := [1, 1, 0, 0, 0, 0, 0, 0, 1, 0, 0, 0, 0, 0, 0, 0, 0, 0],
    bss_address := 0,
    bss_length := 0,
    entry_point := 0 }

/-- A header with exactly the two text slots 0 and 1 live and no data slot. -/
def twoTextHdr : DolHeaderRaw :=
  { offsets := [0x100, 0x2000, 0, 0, 0, 0, 0, 0, 0, 0, 0, 0, 0, 0, 0, 0, 0, 0],
    addresses := [0x80003100, 0x80005000, 0, 0, 0, 0, 0, 0, 0, 0, 0, 0, 0, 0, 0, 0, 0, 0],
    lengths := [0x1f00, 0x400, 0, 0, 0, 0, 0, 0, 0, 0, 0, 0, 0, 0, 0, 0, 0, 0],
    bss_address := 0x80006000,
    bss_length := 0x1000,
    entry_point := 0x80003100 }

/-- A header all of whose 18 slots are zero, with the three scalars set. -/
def emptyHdr : DolHeaderRaw :=
  { offsets := List.replicate 18 0,
    addresses := List.replicate 18 0,
    lengths := List.replicate 18 0,
    bss_address := 0x80000000,
    bss_length := 0x1000,
    entry_point := 0x80003100 }

/-- The specification's count of peers: the other sections of `secs` that share
the classification of the section at position `j`. -/
def specPeers (secs : List DolSection) (j : Nat) : Nat :=
  match secs[j]? with
  | none => 0
  | some cur => (secs.eraseIdx j).countP (fun s => s.isText == cur.isText)

/-- The specification's rank: the peers that come before position `j` (the list
is in slot order, so these are the peers with a lower slot index). -/
def specRank (secs : List DolSection) (j : Nat) : Nat :=
  match secs[j]? with
  | none => 0
  | some cur => (secs.take j).countP (fun s => s.isText == cur.isText)

/-- The naming rule in the specification's words, evaluated on the list `secs`:
the bare base token if there are no peers, otherwise the base token followed by
the decimal numeral of `rank + 2`. -/
def specName (secs : List DolSection) (j : Nat) : String :=
  match secs[j]? with
  | none => ""
  | some cur =>
    if specPeers secs j = 0 then baseName cur.isText
    else baseName cur.isText ++ toString (specRank secs j + 2)

/-- The naming rule the code follows, on the final list `secs`: the bare base
token if the rank is 0, otherwise the base token followed by the decimal
numeral of `rank + 1`. -/
def rankName (secs : List DolSection) (j : Nat) : String :=
  match secs[j]? with
  | none => ""
  | some cur =>
    if specRank secs j = 0 then baseName cur.isText
    else baseName cur.isText ++ toString (specRank secs j + 1)

/-- A header in which slot 0 is absent (its length is zero) and slot 1 is live. -/
def gapHdr : DolHeaderRaw :=
  { offsets := [0x100, 0x2000, 0, 0, 0, 0, 0, 0, 0, 0, 0, 0, 0, 0, 0, 0, 0, 0],
    addresses := [0x80003100, 0x80005000, 0, 0, 0, 0, 0, 0, 0, 0, 0, 0, 0, 0, 0, 0, 0, 0],
    lengths := [0, 0x400, 0, 0, 0, 0, 0, 0, 0, 0, 0, 0, 0, 0, 0, 0, 0, 0],
    bss_address := 0x80006000,
    bss_length := 0x1000,
    entry_point := 0x80005000 }

/-- A naming source whose module 0 has the entries 0 ↦ ".init", 1 ↦ ".main",
2 ↦ ".ctors" and no other module. -/
def sampleNames : ExtraInfo :=
  { modules := fun k =>
      if k = 0 then some { sections := fun j => [".init", ".main", ".ctors"][j]? } else none }

/-- The unsigned value `b0*2^24 + b1*2^16 + b2*2^8 + b3` of the four bytes of `dol`
at `p .. p+3`. -/
def bigEndian (dol : List Nat) (p : Nat) : Nat :=
  dol.getD p 0 * 2 ^ 24 + dol.getD (p + 1) 0 * 2 ^ 16 + dol.getD (p + 2) 0 * 2 ^ 8 +
    dol.getD (p + 3) 0

/-- A buffer of exactly 228 bytes, all zero but for the entry-point field at
`0xE0`, which holds the bytes 00 00 01 00. -/
def entryDol : List Nat :=
  List.replicate 0xE0 0 ++ [0, 0, 1, 0]

/-- A naming source with an entry for module key 1 only: it has no module 0. -/
def noModuleZero : ExtraInfo :=
  { modules := fun k => if k = 1 then some { sections := fun _ => some ".rel" } else none }

/-- A naming source whose module 0 has the single entry 0 ↦ ".init". -/
def shortNames : ExtraInfo :=
  { modules := fun k =>
      if k = 0 then some { sections := fun j => if j = 0 then some ".init" else none }
      else none }

/-- A header all of whose 18 slots are live (every field is 1). -/
def fullHdr : DolHeaderRaw :=
  { offsets := List.replicate 18 1,
    addresses := List.replicate 18 1,
    lengths := List.replicate 18 1,
    bss_address := 0,
    bss_length := 0,
    entry_point := 0 }

/-! ## The textual report -/

/-- One insertion `os << x` into the output stream. The formatting macros `WIDTH`,
`HEX_FMT` and `HEX_FMTW` of `ninutils/utils.hpp` are not among the sources; an
insertion of one of them is recorded with its arguments and left
uninterpreted; it is not an insertion of "\n". -/
inductive StreamItem where
  | lit (s : String)
  | width (s : String) (w : Nat)
  | hex (v : Nat)
  | hexw (v : Nat) (w : Nat)
  deriving DecidableEq, Repr

/-- The loop of `DolHeaderRaw::print` run for `i = 0 .. n-1` on the stream `os`. -/
def DolHeaderRaw.printRows (h : DolHeaderRaw) (os : List StreamItem) : Nat → List StreamItem
  | 0 => os
  | i + 1 =>
    DolHeaderRaw.printRows h os i ++
      [.hexw (h.offsets.getD i 0) 12, .hexw (h.addresses.getD i 0) 12,
       .hexw (h.lengths.getD i 0) 12, .lit "\n"]

/-- The method `DolHeaderRaw::print(std::ostream& os)`: the stream after the call. -/
def DolHeaderRaw.print (h : DolHeaderRaw) (os : List StreamItem) : List StreamItem :=
  let os1 := os ++ [.lit "Sections:", .lit "\n"]
  let os2 := os1 ++ [.width "Offset" 12, .width "Address" 12, .width "Size" 10, .lit "\n"]
  let os3 := DolHeaderRaw.printRows h os2 DOL_MAX_SECTION_COUNT
  let os4 := os3 ++ [.width ".bss address" 14, .hex h.bss_address, .lit "\n"]
  let os5 := os4 ++ [.width ".bss length" 14, .hex h.bss_length, .lit "\n"]
  os5 ++ [.width "entry point" 14, .hex h.entry_point, .lit "\n"]

/-- The method `DolSection::print(std::ostream& os)`: the stream after the call. -/
def DolSection.print (s : DolSection) (os : List StreamItem) : List StreamItem :=
  os ++ [.hexw s.offset 12, .hexw s.address 12, .hexw s.length 12, .lit "\n"]

/-- The loop of `Dol::print` run for `i = 0 .. n-1` on the stream `os`. -/
def Dol.printRows (d : Dol) (os : List StreamItem) : Nat → List StreamItem
  | 0 => os
  | i + 1 =>
    match d.secs[i]? with
    | some s => s.print (Dol.printRows d os i)
    | none => Dol.printRows d os i

/-- The method `Dol::print(std::ostream& os)`: the stream after the call. -/
def Dol.print (d : Dol) (os : List StreamItem) : List StreamItem :=
  let os1 := os ++ [.lit "Sections:", .lit "\n"]
  let os2 := os1 ++ [.width "Offset" 12, .width "Address" 12, .width "Size" 10, .lit "\n"]
  let os3 := Dol.printRows d os2 d.secs.length
  let os4 := os3 ++ [.width ".bss address" 14, .hex d.hdr.bss_address, .lit "\n"]
  let os5 := os4 ++ [.width ".bss length" 14, .hex d.hdr.bss_length, .lit "\n"]
  os5 ++ [.width "entry point" 14, .hex d.hdr.entry_point, .lit "\n"]

/-- An insertion of the string "\n". -/
def StreamItem.isNewline : StreamItem → Bool
  | .lit s => s == "\n"
  | _ => false

/-- The lines of a stream: the runs of insertions between successive insertions
of "\n", each line without its closing "\n". -/
def streamLines : List StreamItem → List (List StreamItem)
  | [] => []
  | x :: rest =>
    if x.isNewline then [] :: streamLines rest
    else
      match streamLines rest with
      | [] => [[x]]
      | l :: ls => (x :: l) :: ls

/-- The stream that consists of the given lines, each closed by "\n". -/
def emitLines (ls : List (List StreamItem)) : List StreamItem :=
  ls.flatMap (fun l => l ++ [StreamItem.lit "\n"])

/-- The row of the report that shows the triple `(o, a, l)`. -/
def reportRow (t : Nat × Nat × Nat) : List StreamItem :=
  [.hexw t.1 12, .hexw t.2.1 12, .hexw t.2.2 12]

/-- The two heading lines of the report. -/
def reportHead : List (List StreamItem) :=
  [[.lit "Sections:"], [.width "Offset" 12, .width "Address" 12, .width "Size" 10]]

/-- The three closing lines of the report for the header `h`. -/
def reportTail (h : DolHeaderRaw) : List (List StreamItem) :=
  [[.width ".bss address" 14, .hex h.bss_address],
   [.width ".bss length" 14, .hex h.bss_length],
   [.width "entry point" 14, .hex h.entry_point]]

/-! ## The reads of the header decoder -/

/-- The addresses at which iteration `i` of the loop of `DolHeaderRaw::DolHeaderRaw`
calls `readbe32`, in call order. -/
def DolHeaderRaw.slotReads (i : Nat) : List Nat :=
  [DOLHDR_OFFSETS_OFF + i * DOLHDR_OFFSET_SIZE,
   DOLHDR_ADDRESSES_OFF + i * DOLHDR_ADDRESS_SIZE,
   DOLHDR_SIZES_OFF + i * DOLHDR_SIZE_SIZE]

/-- The addresses of all calls of `readbe32` made by `DolHeaderRaw::DolHeaderRaw`, in
call order: those of the loop for `i = 0 .. 17`, then the three scalars. -/
def DolHeaderRaw.reads : List Nat :=
  (List.range DOL_MAX_SECTION_COUNT).flatMap DolHeaderRaw.slotReads ++
    [DOLHDR_BSSADDR_OFF, DOLHDR_BSSLEN_OFF, DOLHDR_ENTRYPOINT_OFF]

/-- Performing `readbe32` at each address of a list in turn; the first read that
falls outside the buffer ends the run. -/
def readAll (dol : List Nat) : List Nat → Except Fault (List Nat)
  | [] => .ok []
  | p :: ps => do
    let v ← readbe32 dol p
    let vs ← readAll dol ps
    .ok (v :: vs)

/-- The 57 fields of a header in the order in which the decoder reads them. -/
def DolHeaderRaw.fields (h : DolHeaderRaw) : List Nat :=
  (List.range DOL_MAX_SECTION_COUNT).flatMap
    (fun i => [h.offsets.getD i 0, h.addresses.getD i 0, h.lengths.getD i 0]) ++
    [h.bss_address, h.bss_length, h.entry_point]

/-- The first address of a list at which a 4-byte read falls outside `dol`. -/
def firstFault (dol : List Nat) (ps : List Nat) : Option Nat :=
  ps.find? (fun p => decide (dol.length < p + 4))

/-- The outcome of a run of reads: the fault at the first bad address, if any,
and the value `v` otherwise. -/
def faultOr {α : Type} (o : Option Nat) (v : α) : Except Fault α :=
  match o with
  | some p => .error (.outOfBounds p)
  | none => .ok v

/-! # Properties -/

/-! ## The header decoder -/

theorem readbe32_ok (dol : List Nat) (p : Nat) (h : p + 4 ≤ dol.length) :
    readbe32 dol p = .ok (be32At dol p) := by
  simp [readbe32, be32At, h]

theorem readbe32_error (dol : List Nat) (p : Nat) (e : Fault) (h : readbe32 dol p = .error e) :
    e = .outOfBounds p ∧ dol.length < p + 4 := by
  unfold readbe32 at h
  split at h
  · cases h
  · injection h with h
    exact ⟨h.symm, by omega⟩

theorem readSlots_ok (dol : List Nat) (h : DOLHDR_EXTENT ≤ dol.length) :
    ∀ n, n ≤ DOL_MAX_SECTION_COUNT → DolHeaderRaw.readSlots dol n = .ok
      ((List.range n).map (fun i => be32At dol (DOLHDR_OFFSETS_OFF + i * DOLHDR_OFFSET_SIZE)),
       (List.range n).map (fun i => be32At dol (DOLHDR_ADDRESSES_OFF + i * DOLHDR_ADDRESS_SIZE)),
       (List.range n).map (fun i => be32At dol (DOLHDR_SIZES_OFF + i * DOLHDR_SIZE_SIZE))) := by
  intro n
  induction n with
  | zero => intro _; rfl
  | succ n ih =>
    intro hn
    have hn1 : n ≤ DOL_MAX_SECTION_COUNT := Nat.le_of_succ_le hn
    simp only [DOL_MAX_SECTION_COUNT, DOLHDR_EXTENT, DOLHDR_ENTRYPOINT_OFF] at hn h
    have ho : DOLHDR_OFFSETS_OFF + n * DOLHDR_OFFSET_SIZE + 4 ≤ dol.length := by
      simp only [DOLHDR_OFFSETS_OFF, DOLHDR_OFFSET_SIZE]; omega
    have ha : DOLHDR_ADDRESSES_OFF + n * DOLHDR_ADDRESS_SIZE + 4 ≤ dol.length := by
      simp only [DOLHDR_ADDRESSES_OFF, DOLHDR_ADDRESS_SIZE]; omega
    have hl : DOLHDR_SIZES_OFF + n * DOLHDR_SIZE_SIZE + 4 ≤ dol.length := by
      simp only [DOLHDR_SIZES_OFF, DOLHDR_SIZE_SIZE]; omega
    simp only [DolHeaderRaw.readSlots, ih hn1, readbe32_ok _ _ ho, readbe32_ok _ _ ha,
      readbe32_ok _ _ hl, bind, Except.bind, List.range_succ, List.map_append, List.map_cons,
      List.map_nil]

theorem decode_ok (dol : List Nat) (h : DOLHDR_EXTENT ≤ dol.length) :
    DolHeaderRaw.decode dol = .ok (headerOf dol) := by
  have h1 := h
  simp only [DOLHDR_EXTENT, DOLHDR_ENTRYPOINT_OFF] at h1
  have hb : DOLHDR_BSSADDR_OFF + 4 ≤ dol.length := by simp only [DOLHDR_BSSADDR_OFF]; omega
  have hc : DOLHDR_BSSLEN_OFF + 4 ≤ dol.length := by simp only [DOLHDR_BSSLEN_OFF]; omega
  have he : DOLHDR_ENTRYPOINT_OFF + 4 ≤ dol.length := by
    simp only [DOLHDR_ENTRYPOINT_OFF]; omega
  simp only [DolHeaderRaw.decode, readSlots_ok dol h _ (Nat.le_refl _), readbe32_ok _ _ hb,
    readbe32_ok _ _ hc, readbe32_ok _ _ he, bind, Except.bind, headerOf]

theorem readSlots_error (dol : List Nat) (e : Fault) :
    ∀ n, n ≤ DOL_MAX_SECTION_COUNT → DolHeaderRaw.readSlots dol n = .error e →
      ∃ p, e = .outOfBounds p ∧ dol.length < p + 4 ∧ p + 4 ≤ DOLHDR_EXTENT := by
  intro n
  induction n with
  | zero => intro _ h; cases h
  | succ n ih =>
    intro hn h
    have hn1 : n ≤ DOL_MAX_SECTION_COUNT := Nat.le_of_succ_le hn
    simp only [DOL_MAX_SECTION_COUNT] at hn
    simp only [DolHeaderRaw.readSlots, bind, Except.bind] at h
    split at h
    · next e1 h1 => cases h; exact ih hn1 h1
    · next v h1 =>
      split at h
      · next e2 h2 =>
        cases h
        obtain ⟨rfl, hlt⟩ := readbe32_error _ _ _ h2
        exact ⟨_, rfl, hlt, by
          simp only [DOLHDR_OFFSETS_OFF, DOLHDR_OFFSET_SIZE, DOLHDR_EXTENT,
            DOLHDR_ENTRYPOINT_OFF]; omega⟩
      · split at h
        · next e3 h3 =>
          cases h
          obtain ⟨rfl, hlt⟩ := readbe32_error _ _ _ h3
          exact ⟨_, rfl, hlt, by
            simp only [DOLHDR_ADDRESSES_OFF, DOLHDR_ADDRESS_SIZE, DOLHDR_EXTENT,
              DOLHDR_ENTRYPOINT_OFF]; omega⟩
        · split at h
          · next e4 h4 =>
            cases h
            obtain ⟨rfl, hlt⟩ := readbe32_error _ _ _ h4
            exact ⟨_, rfl, hlt, by
              simp only [DOLHDR_SIZES_OFF, DOLHDR_SIZE_SIZE, DOLHDR_EXTENT,
                DOLHDR_ENTRYPOINT_OFF]; omega⟩
          · cases h

theorem decode_error (dol : List Nat) (e : Fault) (h : DolHeaderRaw.decode dol = .error e) :
    ∃ p, e = .outOfBounds p ∧ dol.length < p + 4 ∧ p + 4 ≤ DOLHDR_EXTENT := by
  simp only [DolHeaderRaw.decode, bind, Except.bind] at h
  split at h
  · next e1 h1 => cases h; exact readSlots_error dol _ _ (Nat.le_refl _) h1
  · split at h
    · next e2 h2 =>
      cases h
      obtain ⟨rfl, hlt⟩ := readbe32_error _ _ _ h2
      exact ⟨_, rfl, hlt, by decide⟩
    · split at h
      · next e3 h3 =>
        cases h
        obtain ⟨rfl, hlt⟩ := readbe32_error _ _ _ h3
        exact ⟨_, rfl, hlt, by decide⟩
      · split at h
        · next e4 h4 =>
          cases h
          obtain ⟨rfl, hlt⟩ := readbe32_error _ _ _ h4
          exact ⟨_, rfl, hlt, by decide⟩
        · cases h

theorem decode_short (dol : List Nat) (h : dol.length < DOLHDR_EXTENT) :
    ∃ p, DolHeaderRaw.decode dol = .error (.outOfBounds p) ∧ dol.length < p + 4 ∧
      p + 4 ≤ DOLHDR_EXTENT := by
  cases hd : DolHeaderRaw.decode dol with
  | error e =>
    obtain ⟨p, rfl, h1, h2⟩ := decode_error dol e hd
    exact ⟨p, rfl, h1, h2⟩
  | ok v =>
    exfalso
    simp only [DolHeaderRaw.decode, bind, Except.bind] at hd
    split at hd
    · cases hd
    · split at hd
      · cases hd
      · split at hd
        · cases hd
        · split at hd
          · cases hd
          · next v4 h4 =>
            unfold readbe32 at h4
            split at h4
            · next hle =>
              simp only [DOLHDR_EXTENT] at h
              omega
            · cases h4

/-! ## The counting loop and the generated name -/

theorem countStep_fold (secs : List DolSection) (cur : DolSection) :
    ∀ k, k ≤ secs.length →
      (List.range k).foldl (Dol.countStep (secs ++ [cur]) secs.length cur) (0, 0) =
        (sameKind cur.isText (secs.take k) % 256, sameKind cur.isText (secs.take k) % 256) := by
  intro k
  induction k with
  | zero => intro _; rfl
  | succ k ih =>
    intro hk
    have hk1 : k < secs.length := hk
    rw [List.range_succ, List.foldl_append, ih (Nat.le_of_lt hk1)]
    have hget : (secs ++ [cur])[k]? = some secs[k] := by
      rw [List.getElem?_append_left hk1, List.getElem?_eq_getElem hk1]
    have htake : secs.take (k + 1) = secs.take k ++ [secs[k]] := by
      rw [List.take_succ, List.getElem?_eq_getElem hk1]; rfl
    have hne : k ≠ secs.length := Nat.ne_of_lt hk1
    simp only [List.foldl_cons, List.foldl_nil, Dol.countStep, hne, if_false, hget,
      DolSection.isBss, and_true, hk1, if_true, htake, sameKind, List.countP_append,
      List.countP_cons, List.countP_nil]
    by_cases hs : secs[k].isText = cur.isText
    · simp [hs, Nat.add_mod]
    · simp [hs]

theorem countSimilar_append (secs : List DolSection) (cur : DolSection) :
    Dol.countSimilar (secs ++ [cur]) secs.length cur =
      (sameKind cur.isText secs % 256, sameKind cur.isText secs % 256) := by
  unfold Dol.countSimilar
  rw [List.length_append, List.length_singleton, List.range_succ, List.foldl_append,
    countStep_fold secs cur secs.length (Nat.le_refl _), List.take_length]
  simp [Dol.countStep]

theorem sameKind_le (b : Bool) (secs : List DolSection) : sameKind b secs ≤ secs.length :=
  List.countP_le_length _

theorem defaultName_append (secs : List DolSection) (cur : DolSection)
    (hlen : secs.length < 256) :
    Dol.defaultName (secs ++ [cur]) secs.length cur =
      ordinalName cur.isText (sameKind cur.isText secs + 1) := by
  have hle := sameKind_le cur.isText secs
  have hmod : sameKind cur.isText secs % 256 = sameKind cur.isText secs :=
    Nat.mod_eq_of_lt (by omega)
  simp only [Dol.defaultName, countSimilar_append, hmod, ordinalName, baseName]
  by_cases h0 : sameKind cur.isText secs = 0
  · simp [h0]
  · simp [h0]

/-! ## The slot loop -/

theorem setSectionName_last (secs : List DolSection) (cur : DolSection)
    (extra_info : Option ExtraInfo) :
    Dol.setSectionName (secs ++ [cur]) secs.length extra_info =
      (nameFor extra_info (secs ++ [cur]) secs.length cur).map
        (fun nm => secs ++ [{ cur with name := nm }]) := by
  have hget : (secs ++ [cur])[secs.length]? = some cur := by simp
  have hset : ∀ x : DolSection, (secs ++ [cur]).set secs.length x = secs ++ [x] := by
    intro x; simp
  unfold Dol.setSectionName nameFor
  rw [hget]
  simp only [hset]
  cases extra_info.bind (fun e => e.modules 0) with
  | none => rfl
  | some m =>
    show (match m.sections secs.length with
      | some nm => Except.ok (secs ++ [{ cur with name := nm }])
      | none => Except.error (Fault.missingEntry secs.length)) =
      Except.map (fun nm => secs ++ [{ cur with name := nm }])
        (match m.sections secs.length with
          | some nm => Except.ok nm
          | none => Except.error (Fault.missingEntry secs.length))
    cases m.sections secs.length with
    | none => rfl
    | some nm => rfl

theorem addSlot_eq (h : DolHeaderRaw) (extra_info : Option ExtraInfo)
    (secs : List DolSection) (i : Nat) (hlen : secs.length < 256) :
    Dol.addSlot h extra_info secs i =
      if h.live i then
        (nameFor extra_info (secs ++ [slotSection h i ""]) secs.length (slotSection h i "")).map
          (fun nm => secs ++ [slotSection h i nm])
      else .ok secs := by
  unfold Dol.addSlot
  by_cases hl : h.live i = true
  · have hc : h.offsets.getD i 0 ≠ 0 ∧ h.addresses.getD i 0 ≠ 0 ∧ h.lengths.getD i 0 ≠ 0 := by
      simp only [DolHeaderRaw.live, Bool.and_eq_true, decide_eq_true_eq] at hl
      exact ⟨hl.1.1, hl.1.2, hl.2⟩
    have hidx : ((secs ++ [slotSection h i ""]).length - 1) % 256 = secs.length := by
      simp only [List.length_append, List.length_singleton, Nat.add_sub_cancel]
      exact Nat.mod_eq_of_lt hlen
    rw [if_pos hc, if_pos hl]
    show Dol.setSectionName (secs ++ [slotSection h i ""])
      (((secs ++ [slotSection h i ""]).length - 1) % 256) extra_info = _
    rw [hidx, setSectionName_last]
    rfl
  · have hc : ¬ (h.offsets.getD i 0 ≠ 0 ∧ h.addresses.getD i 0 ≠ 0 ∧
        h.lengths.getD i 0 ≠ 0) := by
      intro hc
      apply hl
      simp only [DolHeaderRaw.live, Bool.and_eq_true, decide_eq_true_eq]
      exact ⟨⟨hc.1, hc.2.1⟩, hc.2.2⟩
    rw [if_neg hc, if_neg hl]

theorem liveBelow_succ (h : DolHeaderRaw) (n : Nat) :
    h.liveBelow (n + 1) = h.liveBelow n ++ (if h.live n then [n] else []) := by
  simp only [DolHeaderRaw.liveBelow, List.range_succ, List.filter_append]
  by_cases hl : h.live n = true
  · simp [hl]
  · simp [hl]

theorem liveBelow_length_le (h : DolHeaderRaw) (n : Nat) : (h.liveBelow n).length ≤ n := by
  have := List.length_filter_le h.live (List.range n)
  simpa [DolHeaderRaw.liveBelow] using this

theorem liveBelow_lt (h : DolHeaderRaw) (n i : Nat) (hi : i ∈ h.liveBelow n) :
    i < n ∧ h.live i = true := by
  simpa [DolHeaderRaw.liveBelow] using hi

theorem buildSecs_succ_ok (h : DolHeaderRaw) (extra_info : Option ExtraInfo) (n : Nat)
    (secs : List DolSection) (hb : Dol.buildSecs h extra_info (n + 1) = .ok secs) :
    ∃ secs0, Dol.buildSecs h extra_info n = .ok secs0 ∧
      Dol.addSlot h extra_info secs0 n = .ok secs := by
  simp only [Dol.buildSecs, bind, Except.bind] at hb
  split at hb
  · cases hb
  · next secs0 h0 => exact ⟨secs0, h0, hb⟩

/-- The sections of a successful run of the slot loop are the live slots in
increasing order, each paired with the name it was given; under a naming source
with module 0 the name at list position `j` is the source's entry `j`. -/
theorem buildSecs_shape (h : DolHeaderRaw) (extra_info : Option ExtraInfo) :
    ∀ n, n ≤ 256 → ∀ secs, Dol.buildSecs h extra_info n = .ok secs →
      ∃ names : List String, names.length = (h.liveBelow n).length ∧
        secs = List.zipWith (slotSection h) (h.liveBelow n) names ∧
        ∀ m, extra_info.bind (fun e => e.modules 0) = some m →
          ∀ j, j < names.length → m.sections j = names[j]? := by
  intro n
  induction n with
  | zero =>
    intro _ secs hb
    cases hb
    exact ⟨[], rfl, rfl, fun _ _ j hj => absurd hj (Nat.not_lt_zero j)⟩
  | succ n ih =>
    intro hn secs hb
    obtain ⟨secs0, h0, ha⟩ := buildSecs_succ_ok h extra_info n secs hb
    obtain ⟨names0, hlen0, hz0, hnm0⟩ := ih (Nat.le_of_succ_le hn) secs0 h0
    have hsl : secs0.length = names0.length := by
      rw [hz0, List.length_zipWith, hlen0, Nat.min_self]
    have hlt : secs0.length < 256 := by
      have := liveBelow_length_le h n
      omega
    rw [addSlot_eq h extra_info secs0 n hlt] at ha
    by_cases hl : h.live n = true
    · rw [if_pos hl] at ha
      cases hnf : nameFor extra_info (secs0 ++ [slotSection h n ""]) secs0.length
          (slotSection h n "") with
      | error e => rw [hnf] at ha; cases ha
      | ok nm =>
        rw [hnf] at ha
        injection ha with ha
        refine ⟨names0 ++ [nm], ?_, ?_, ?_⟩
        · simp [liveBelow_succ, hl, hlen0]
        · rw [← ha, liveBelow_succ, if_pos hl, List.zipWith_append _ _ _ _ _ hlen0.symm, ← hz0]
          rfl
        · intro m hm j hj
          by_cases hj0 : j < names0.length
          · rw [List.getElem?_append_left hj0]
            exact hnm0 m hm j hj0
          · have hje : j = names0.length := by
              simp only [List.length_append, List.length_singleton] at hj
              omega
            subst hje
            simp only [nameFor, hm] at hnf
            rw [hsl] at hnf
            cases hs : m.sections names0.length with
            | none => rw [hs] at hnf; cases hnf
            | some nm1 =>
              rw [hs] at hnf
              injection hnf with hnf
              simp [hnf]
    · rw [if_neg hl] at ha
      injection ha with ha
      refine ⟨names0, ?_, ?_, hnm0⟩
      · simp [liveBelow_succ, hl, hlen0]
      · rw [← ha, liveBelow_succ, if_neg hl, List.append_nil]
        exact hz0

/-- The slot loop completes whenever the naming source, if it has module 0, has
an entry for every position of the section list. -/
theorem buildSecs_ok (h : DolHeaderRaw) (extra_info : Option ExtraInfo) :
    ∀ n, n ≤ 256 →
      (∀ m, extra_info.bind (fun e => e.modules 0) = some m →
        ∀ j, j < (h.liveBelow n).length → ∃ nm, m.sections j = some nm) →
      ∃ secs, Dol.buildSecs h extra_info n = .ok secs := by
  intro n
  induction n with
  | zero => intro _ _; exact ⟨[], rfl⟩
  | succ n ih =>
    intro hn hsrc
    have hsrc0 : ∀ m, extra_info.bind (fun e => e.modules 0) = some m →
        ∀ j, j < (h.liveBelow n).length → ∃ nm, m.sections j = some nm := by
      intro m hm j hj
      apply hsrc m hm j
      rw [liveBelow_succ, List.length_append]
      omega
    obtain ⟨secs0, h0⟩ := ih (Nat.le_of_succ_le hn) hsrc0
    obtain ⟨names0, hlen0, hz0, _⟩ := buildSecs_shape h extra_info n (Nat.le_of_succ_le hn) secs0 h0
    have hsl : secs0.length = (h.liveBelow n).length := by
      rw [hz0, List.length_zipWith, hlen0, Nat.min_self]
    have hlt : secs0.length < 256 := by
      have := liveBelow_length_le h n
      omega
    simp only [Dol.buildSecs, h0, bind, Except.bind]
    rw [addSlot_eq h extra_info secs0 n hlt]
    by_cases hl : h.live n = true
    · rw [if_pos hl]
      cases hm : extra_info.bind (fun e => e.modules 0) with
      | none => simp only [nameFor, hm]; exact ⟨_, rfl⟩
      | some m =>
        obtain ⟨nm, hnm⟩ := hsrc m hm secs0.length (by
          rw [liveBelow_succ, if_pos hl, List.length_append, hsl]; simp)
        simp only [nameFor, hm, hnm]
        exact ⟨_, rfl⟩
    · rw [if_neg hl]
      exact ⟨_, rfl⟩

/-! ## Decimal numerals -/

theorem digitVal_digitChar (d : Nat) (h : d < 10) : digitVal (Nat.digitChar d) = d := by
  interval_cases d <;> rfl

theorem decimalValue_toDigitsCore :
    ∀ fuel n ds, n < fuel →
      decimalValue 0 (Nat.toDigitsCore 10 fuel n ds) = decimalValue n ds := by
  intro fuel
  induction fuel with
  | zero => intro n ds h; omega
  | succ fuel ih =>
    intro n ds h
    have hd : digitVal (Nat.digitChar (n % 10)) = n % 10 :=
      digitVal_digitChar _ (Nat.mod_lt _ (by decide))
    unfold Nat.toDigitsCore
    by_cases h0 : n / 10 = 0
    · simp only [h0, if_true]
      have hn : n % 10 = n := by omega
      rw [hn] at hd
      simp only [decimalValue, List.foldl_cons, hd, Nat.zero_mul, Nat.zero_add, hn]
    · simp only [h0, if_false]
      rw [ih (n / 10) _ (by omega)]
      have hn : n / 10 * 10 + n % 10 = n := by omega
      simp only [decimalValue, List.foldl_cons, hd, hn]

theorem decimalValue_repr (n : Nat) : decimalValue 0 (toString n).data = n := by
  show decimalValue 0 (Nat.toDigits 10 n).asString.data = n
  simp only [List.asString, Nat.toDigits]
  rw [decimalValue_toDigitsCore (n + 1) n [] (Nat.lt_succ_self n)]
  rfl

theorem toString_nat_injective (j k : Nat) (h : toString j = toString k) : j = k := by
  rw [← decimalValue_repr j, ← decimalValue_repr k, h]

theorem toString_nat_ne_empty (k : Nat) : toString k ≠ "" := by
  intro h
  cases k with
  | zero => exact absurd h (by decide)
  | succ k =>
    have h1 := decimalValue_repr (k + 1)
    rw [h] at h1
    exact absurd h1 (by simp [decimalValue])

theorem append_toString_inj (b : String) (j k : Nat)
    (h : b ++ toString j = b ++ toString k) : j = k := by
  apply toString_nat_injective
  have h1 := congrArg String.data h
  simp only [String.data_append] at h1
  exact String.ext (List.append_cancel_left h1)

theorem append_toString_ne (b : String) (k : Nat) : b ++ toString k ≠ b := by
  intro h
  have h1 := congrArg String.data h
  simp only [String.data_append, List.append_right_eq_self] at h1
  exact toString_nat_ne_empty k (String.ext h1)

theorem ordinalName_inj (b : Bool) (j k : Nat)
    (h : ordinalName b j = ordinalName b k) : j = k := by
  unfold ordinalName at h
  by_cases hj1 : j = 1
  · by_cases hk1 : k = 1
    · omega
    · rw [if_pos hj1, if_neg hk1] at h
      exact absurd h.symm (append_toString_ne _ _)
  · by_cases hk1 : k = 1
    · rw [if_neg hj1, if_pos hk1] at h
      exact absurd h (append_toString_ne _ _)
    · rw [if_neg hj1, if_neg hk1] at h
      exact append_toString_inj _ _ _ h

/-! ## The section list under generated names -/

theorem defaultSecs_length_le (h : DolHeaderRaw) : ∀ n, (defaultSecs h n).length ≤ n := by
  intro n
  induction n with
  | zero => simp [defaultSecs]
  | succ n ih =>
    unfold defaultSecs
    split
    · simp only [List.length_append, List.length_singleton]; omega
    · omega

theorem buildSecs_default (h : DolHeaderRaw) (extra_info : Option ExtraInfo)
    (hnone : extra_info.bind (fun e => e.modules 0) = none) :
    ∀ n, n ≤ 256 → Dol.buildSecs h extra_info n = .ok (defaultSecs h n) := by
  intro n
  induction n with
  | zero => intro _; rfl
  | succ n ih =>
    intro hn
    have hlt : (defaultSecs h n).length < 256 := by
      have := defaultSecs_length_le h n
      omega
    simp only [Dol.buildSecs, ih (Nat.le_of_succ_le hn), bind, Except.bind]
    rw [addSlot_eq h extra_info _ n hlt]
    by_cases hl : h.live n = true
    · rw [if_pos hl]
      simp only [nameFor, hnone, defaultName_append _ _ hlt, defaultSecs, hl, if_true]
      rfl
    · rw [if_neg hl]
      simp only [defaultSecs, hl]
      rfl

/-- Position by position: the name of the section at position `j` is the ordinal
name for one more than the number of same-kind sections before it. -/
theorem defaultSecs_name (h : DolHeaderRaw) :
    ∀ n j (hj : j < (defaultSecs h n).length),
      ((defaultSecs h n)[j]).name =
        ordinalName ((defaultSecs h n)[j]).isText
          (sameKind ((defaultSecs h n)[j]).isText ((defaultSecs h n).take j) + 1) := by
  intro n
  induction n with
  | zero => intro j hj; simp [defaultSecs] at hj
  | succ n ih =>
    intro j hj
    by_cases hl : h.live n = true
    · have hd : defaultSecs h (n + 1) = defaultSecs h n ++ [slotSection h n
          (ordinalName (decide (n < 7)) (sameKind (decide (n < 7)) (defaultSecs h n) + 1))] := by
        simp [defaultSecs, hl]
      simp only [hd] at hj ⊢
      by_cases hj0 : j < (defaultSecs h n).length
      · rw [List.getElem_append_left hj0, List.take_append_of_le_length (Nat.le_of_lt hj0)]
        exact ih j hj0
      · have hje : j = (defaultSecs h n).length := by
          simp only [List.length_append, List.length_singleton] at hj
          omega
        subst hje
        simp [slotSection]
    · have hd : defaultSecs h (n + 1) = defaultSecs h n := by
        simp [defaultSecs, hl]
      simp only [hd] at hj ⊢
      exact ih j hj

theorem map_zipWith_slotSection {α : Type} (h : DolHeaderRaw) (f : DolSection → α)
    (g : Nat → α) (hf : ∀ i nm, f (slotSection h i nm) = g i) :
    ∀ (l : List Nat) (names : List String), names.length = l.length →
      (List.zipWith (slotSection h) l names).map f = l.map g := by
  intro l
  induction l with
  | nil => intro names _; simp
  | cons i l ih =>
    intro names hlen
    cases names with
    | nil => simp at hlen
    | cons nm names =>
      simp only [List.length_cons, Nat.add_right_cancel_iff] at hlen
      simp only [List.zipWith_cons_cons, List.map_cons, hf, ih names hlen]

theorem sections_map (α : Type) (h : DolHeaderRaw) (extra_info : Option ExtraInfo)
    (secs : List DolSection) (hs : Dol.sections h extra_info = .ok secs)
    (f : DolSection → α) (g : Nat → α) (hf : ∀ i nm, f (slotSection h i nm) = g i) :
    secs.map f = h.liveSlots.map g := by
  obtain ⟨names, hlen, hz, _⟩ := buildSecs_shape h extra_info DOL_MAX_SECTION_COUNT
    (by decide) secs hs
  rw [hz]
  exact map_zipWith_slotSection h f g hf _ names hlen

theorem sections_none_ok (h : DolHeaderRaw) :
    Dol.sections h none = .ok (defaultSecs h DOL_MAX_SECTION_COUNT) :=
  buildSecs_default h none rfl DOL_MAX_SECTION_COUNT (by decide)

/-! ## The constructor up to the copy -/

theorem build_ok (dol : List Nat) (size : Nat) (extra_info : Option ExtraInfo) (d : Dol)
    (h : Dol.build dol size extra_info = .ok d) :
    DolHeaderRaw.decode dol = .ok d.hdr ∧ Dol.sections d.hdr extra_info = .ok d.secs ∧
      d.file = none ∧ d.fileSize = size := by
  simp only [Dol.build, bind, Except.bind] at h
  split at h
  · cases h
  · next hdr hh =>
    split at h
    · cases h
    · next secs hsecs =>
      injection h with h
      subst h
      exact ⟨hh, hsecs, rfl, rfl⟩

theorem build_none_ok (dol : List Nat) (size : Nat) (hlen : DOLHDR_EXTENT ≤ dol.length) :
    Dol.build dol size none = .ok
      { hdr := headerOf dol,
        secs := defaultSecs (headerOf dol) DOL_MAX_SECTION_COUNT,
        file := none,
        fileSize := size } := by
  simp only [Dol.build, decode_ok dol hlen, sections_none_ok, bind, Except.bind]

/-! ## C1 -/

/-- C1: for every input buffer of at least 0xE4 bytes and every size argument,
the `Dol` constructor builds its header and section list when no naming source
is given, and whenever it builds them (with or without a naming source) the
header is the decoded header and the sequence of (offset, address, length)
triples of the sections equals the sequence of (offsets[i], addresses[i],
lengths[i]) over the slots i of 0..17 in increasing order, restricted to the
slots where all three values are non-zero. -/
theorem C1_section_triples (dol : List Nat) (hlen : 0xE4 ≤ dol.length) (size : Nat) :
    (∃ d, Dol.build dol size none = .ok d) ∧
    ∀ extra_info d, Dol.build dol size extra_info = .ok d →
      DolHeaderRaw.decode dol = .ok d.hdr ∧
      d.secs.map (fun s => (s.offset, s.address, s.length)) =
        ((List.range 18).filter (fun i => decide (d.hdr.offsets.getD i 0 ≠ 0) &&
            decide (d.hdr.addresses.getD i 0 ≠ 0) && decide (d.hdr.lengths.getD i 0 ≠ 0))).map
          (fun i => (d.hdr.offsets.getD i 0, d.hdr.addresses.getD i 0,
            d.hdr.lengths.getD i 0)) := by
  constructor
  · exact ⟨_, build_none_ok dol size hlen⟩
  · intro extra_info d hd
    obtain ⟨h1, h2, _, _⟩ := build_ok dol size extra_info d hd
    exact ⟨h1, sections_map _ d.hdr extra_info d.secs h2 _ _ (fun _ _ => rfl)⟩

theorem C1_section_triples_witness :
    0xE4 ≤ sampleDol.length ∧
    (∃ d, Dol.build sampleDol 228 none = .ok d) ∧
    ∀ extra_info d, Dol.build sampleDol 228 extra_info = .ok d →
      DolHeaderRaw.decode sampleDol = .ok d.hdr ∧
      d.secs.map (fun s => (s.offset, s.address, s.length)) =
        ((List.range 18).filter (fun i => decide (d.hdr.offsets.getD i 0 ≠ 0) &&
            decide (d.hdr.addresses.getD i 0 ≠ 0) && decide (d.hdr.lengths.getD i 0 ≠ 0))).map
          (fun i => (d.hdr.offsets.getD i 0, d.hdr.addresses.getD i 0,
            d.hdr.lengths.getD i 0)) :=
  ⟨by decide, C1_section_triples sampleDol (by decide) 228⟩

theorem liveSlots_length_le (h : DolHeaderRaw) : h.liveSlots.length ≤ 18 :=
  liveBelow_length_le h 18

/-! ## C2 -/

/-- C2: for every header the section loop completes when no naming source is
given, and whenever it completes the number of sections is at most 18 and
equals the number of slot indices i in 0..17 whose offset, address and length
are all non-zero; a slot with one of the three fields zero is not counted, and
when every slot has a zero field the section list is empty. -/
theorem C2_section_count (hdr : DolHeaderRaw) :
    (∃ secs, Dol.sections hdr none = .ok secs) ∧
    ∀ extra_info secs, Dol.sections hdr extra_info = .ok secs →
      secs.length ≤ DOL_MAX_SECTION_COUNT ∧
      secs.length = (List.range 18).countP (fun i => decide (hdr.offsets.getD i 0 ≠ 0 ∧
        hdr.addresses.getD i 0 ≠ 0 ∧ hdr.lengths.getD i 0 ≠ 0)) ∧
      ((∀ i, i < 18 → hdr.offsets.getD i 0 = 0 ∨ hdr.addresses.getD i 0 = 0 ∨
        hdr.lengths.getD i 0 = 0) → secs = []) := by
  refine ⟨⟨_, sections_none_ok _⟩, ?_⟩
  intro extra_info secs hs
  have hmap := sections_map Unit hdr extra_info secs hs (fun _ => ()) (fun _ => ())
    (fun _ _ => rfl)
  have hlen : secs.length = hdr.liveSlots.length := by
    have := congrArg List.length hmap
    simpa using this
  have hcount : hdr.liveSlots.length = (List.range 18).countP (fun i =>
      decide (hdr.offsets.getD i 0 ≠ 0 ∧ hdr.addresses.getD i 0 ≠ 0 ∧
        hdr.lengths.getD i 0 ≠ 0)) := by
    rw [List.countP_eq_length_filter]
    congr 1
    apply List.filter_congr
    intro i _
    simp [DolHeaderRaw.live, Bool.and_assoc]
  refine ⟨?_, ?_, ?_⟩
  · rw [hlen]; exact liveSlots_length_le hdr
  · rw [hlen, hcount]
  · intro hz
    apply List.eq_nil_of_length_eq_zero
    rw [hlen, hcount, List.countP_eq_zero]
    intro i hi
    have hi18 : i < 18 := by simpa using hi
    have := hz i hi18
    simp only [decide_eq_true_eq]
    omega

theorem C2_section_count_witness :
    ∃ secs, Dol.sections emptyHdr none = .ok secs ∧
      secs.length ≤ DOL_MAX_SECTION_COUNT ∧
      secs.length = (List.range 18).countP (fun i => decide (emptyHdr.offsets.getD i 0 ≠ 0 ∧
        emptyHdr.addresses.getD i 0 ≠ 0 ∧ emptyHdr.lengths.getD i 0 ≠ 0)) ∧
      secs = [] :=
  ⟨[], rfl, ((C2_section_count emptyHdr).2 none [] rfl).1,
    ((C2_section_count emptyHdr).2 none [] rfl).2.1,
    ((C2_section_count emptyHdr).2 none [] rfl).2.2 (by decide)⟩

/-! ## C3 -/

/-- C3: whenever the section loop completes, the sections are the live slots in
increasing order, and the section built from slot i has isText true exactly
when i < 7, whatever the slot's offset, address and length are. -/
theorem C3_positional_classification (hdr : DolHeaderRaw) (extra_info : Option ExtraInfo)
    (secs : List DolSection) (hs : Dol.sections hdr extra_info = .ok secs) :
    secs.map (fun s => ((s.offset, s.address, s.length), s.isText)) =
      hdr.liveSlots.map (fun i => (hdr.slotTriple i, decide (i < 7))) ∧
    ∀ j (hj : j < secs.length), ∃ i, hdr.liveSlots[j]? = some i ∧ i < 18 ∧
      (secs[j].isText = true ↔ i < 7) := by
  have hmap := sections_map _ hdr extra_info secs hs
    (fun s => ((s.offset, s.address, s.length), s.isText))
    (fun i => (hdr.slotTriple i, decide (i < 7))) (fun _ _ => rfl)
  refine ⟨hmap, ?_⟩
  intro j hj
  have hlen : secs.length = hdr.liveSlots.length := by
    have := congrArg List.length hmap
    simpa using this
  have hj1 : j < hdr.liveSlots.length := by omega
  refine ⟨hdr.liveSlots[j], List.getElem?_eq_getElem hj1, ?_, ?_⟩
  · exact (liveBelow_lt hdr 18 _ (List.getElem_mem hj1)).1
  · have := congrArg (fun l => l[j]?) hmap
    simp only [List.getElem?_map, List.getElem?_eq_getElem hj, List.getElem?_eq_getElem hj1,
      Option.map_some', Option.some.injEq, Prod.mk.injEq] at this
    rw [this.2]
    simp

theorem C3_positional_classification_witness :
    Dol.sections sampleHdr none = .ok
      [{ offset := 1, address := 1, length := 1, isText := true, name := ".text" },
       { offset := 1, address := 1, length := 1, isText := true, name := ".text2" },
       { offset := 1, address := 1, length := 1, isText := false, name := ".data" }] ∧
    sampleHdr.liveSlots = [0, 1, 8] ∧
    [((1, 1, 1), true), ((1, 1, 1), true), ((1, 1, 1), false)] =
      sampleHdr.liveSlots.map (fun i => (sampleHdr.slotTriple i, decide (i < 7))) :=
  ⟨rfl, by decide, (C3_positional_classification sampleHdr none _ rfl).1⟩

/-! ## C4 -/

theorem defaultSecs_succ_live (h : DolHeaderRaw) (n : Nat) (hl : h.live n = true) :
    defaultSecs h (n + 1) = defaultSecs h n ++ [slotSection h n
      (ordinalName (decide (n < 7)) (sameKind (decide (n < 7)) (defaultSecs h n) + 1))] := by
  simp [defaultSecs, hl]

theorem defaultSecs_succ_dead (h : DolHeaderRaw) (n : Nat) (hl : ¬ h.live n = true) :
    defaultSecs h (n + 1) = defaultSecs h n := by
  simp [defaultSecs, hl]

/-- Kind by kind: the names of the sections of one classification, in list
order, are the ordinal names of 1, 2, 3, ... -/
theorem defaultSecs_filter_names (h : DolHeaderRaw) (b : Bool) :
    ∀ n, ((defaultSecs h n).filter (fun s => s.isText == b)).map (fun s => s.name) =
      (List.range ((defaultSecs h n).filter (fun s => s.isText == b)).length).map
        (fun k => ordinalName b (k + 1)) := by
  intro n
  induction n with
  | zero => simp [defaultSecs]
  | succ n ih =>
    by_cases hl : h.live n = true
    · rw [defaultSecs_succ_live h n hl, List.filter_append, List.map_append, ih]
      by_cases hb : decide (n < 7) = b
      · have hf : List.filter (fun s => s.isText == b) [slotSection h n
            (ordinalName (decide (n < 7)) (sameKind (decide (n < 7)) (defaultSecs h n) + 1))] =
            [slotSection h n
              (ordinalName (decide (n < 7)) (sameKind (decide (n < 7)) (defaultSecs h n) + 1))] := by
          simp [slotSection, hb]
        rw [hf, List.length_append, List.length_singleton, List.range_succ, List.map_append]
        simp only [List.map_cons, List.map_nil, slotSection, sameKind,
          List.countP_eq_length_filter, hb]
      · have hf : List.filter (fun s => s.isText == b) [slotSection h n
            (ordinalName (decide (n < 7)) (sameKind (decide (n < 7)) (defaultSecs h n) + 1))] =
            [] := by
          simp [slotSection, hb]
        rw [hf]
        simp
    · rw [defaultSecs_succ_dead h n hl]
      exact ih

theorem ordinalName_ne_one (b : Bool) (k : Nat) :
    ordinalName b k ≠ baseName b ++ "1" := by
  unfold ordinalName
  by_cases h1 : k = 1
  · rw [if_pos h1]
    exact fun h => append_toString_ne (baseName b) 1 h.symm
  · rw [if_neg h1]
    intro h
    exact h1 (append_toString_inj (baseName b) k 1 h)

/-- C4: with no naming source, for every header the section loop completes and,
for each classification, the names of its sections in slot order are the bare
base token (".text" / ".data") for the first and the base token followed by the
decimal numeral of k for the k-th, k ≥ 2; with exactly slots 0 and 1 live the
names are [".text", ".text2"]; no section is named with the suffix 1. -/
theorem C4_default_name_ordinals (hdr : DolHeaderRaw) :
    ∃ secs, Dol.sections hdr none = .ok secs ∧
      (∀ b : Bool, (secs.filter (fun s => s.isText == b)).map (fun s => s.name) =
        (List.range (secs.filter (fun s => s.isText == b)).length).map
          (fun k => if k + 1 = 1 then (if b then ".text" else ".data")
            else (if b then ".text" else ".data") ++ toString (k + 1))) ∧
      (hdr.liveSlots = [0, 1] → secs.map (fun s => s.name) = [".text", ".text2"]) ∧
      ∀ s ∈ secs, s.name ≠ (if s.isText then ".text" else ".data") ++ "1" := by
  refine ⟨_, sections_none_ok hdr, ?_, ?_, ?_⟩
  · intro b
    exact defaultSecs_filter_names hdr b _
  · intro hlive
    obtain ⟨names, hlen, hz, _⟩ := buildSecs_shape hdr none DOL_MAX_SECTION_COUNT
      (by decide) _ (sections_none_ok hdr)
    have hlive1 : hdr.liveBelow DOL_MAX_SECTION_COUNT = [0, 1] := hlive
    rw [hlive1] at hlen hz
    match names, hlen with
    | [n0, n1], _ =>
      have hf := defaultSecs_filter_names hdr true DOL_MAX_SECTION_COUNT
      rw [hz] at hf ⊢
      have hfil : List.filter (fun s => s.isText == true)
          (List.zipWith (slotSection hdr) [0, 1] [n0, n1]) =
          List.zipWith (slotSection hdr) [0, 1] [n0, n1] := by
        simp [slotSection]
      rw [hfil] at hf
      rw [hf]
      simp only [List.zipWith_cons_cons, List.zipWith_nil_right, List.length_cons,
        List.length_nil]
      decide
  · intro s hs
    obtain ⟨j, hj, rfl⟩ := List.getElem_of_mem hs
    rw [defaultSecs_name hdr _ j hj]
    exact ordinalName_ne_one _ _

theorem C4_default_name_ordinals_witness :
    twoTextHdr.liveSlots = [0, 1] ∧
    ∃ secs, Dol.sections twoTextHdr none = .ok secs ∧
      (∀ b : Bool, (secs.filter (fun s => s.isText == b)).map (fun s => s.name) =
        (List.range (secs.filter (fun s => s.isText == b)).length).map
          (fun k => if k + 1 = 1 then (if b then ".text" else ".data")
            else (if b then ".text" else ".data") ++ toString (k + 1))) ∧
      (twoTextHdr.liveSlots = [0, 1] → secs.map (fun s => s.name) = [".text", ".text2"]) ∧
      ∀ s ∈ secs, s.name ≠ (if s.isText then ".text" else ".data") ++ "1" :=
  ⟨by decide, C4_default_name_ordinals twoTextHdr⟩

/-! ## C5 -/

theorem sameKind_take_lt (b : Bool) (secs : List DolSection) (i j : Nat) (hij : i < j)
    (hi : i < secs.length) (hb : secs[i].isText = b) :
    sameKind b (secs.take i) < sameKind b (secs.take j) := by
  have h1 : secs.take j = secs.take (i + 1) ++ (secs.take j).drop (i + 1) := by
    have := (List.take_append_drop (i + 1) (secs.take j)).symm
    rwa [List.take_take, Nat.min_eq_left (by omega)] at this
  have h2 : secs.take (i + 1) = secs.take i ++ [secs[i]] := by
    rw [List.take_succ, List.getElem?_eq_getElem hi]; rfl
  rw [h1, h2]
  simp only [sameKind, List.countP_append, List.countP_cons, List.countP_nil, hb, beq_self_eq_true,
    if_true]
  omega

/-- C5: with no naming source, for every header the section loop completes and
any two distinct sections of the same classification carry different names. -/
theorem C5_default_names_distinct (hdr : DolHeaderRaw) :
    ∃ secs, Dol.sections hdr none = .ok secs ∧
      ∀ i j (hi : i < secs.length) (hj : j < secs.length), i ≠ j →
        secs[i].isText = secs[j].isText → secs[i].name ≠ secs[j].name := by
  refine ⟨_, sections_none_ok hdr, ?_⟩
  intro i j hi hj hne hkind hname
  rw [defaultSecs_name hdr _ i hi, defaultSecs_name hdr _ j hj, hkind] at hname
  have heq := ordinalName_inj _ _ _ hname
  rcases Nat.lt_or_gt_of_ne hne with hlt | hgt
  · have := sameKind_take_lt _ _ i j hlt hi hkind
    omega
  · have := sameKind_take_lt _ _ j i hgt hj rfl
    omega

theorem C5_default_names_distinct_witness :
    ∃ secs, Dol.sections sampleHdr none = .ok secs ∧
      ∀ i j (hi : i < secs.length) (hj : j < secs.length), i ≠ j →
        secs[i].isText = secs[j].isText → secs[i].name ≠ secs[j].name :=
  C5_default_names_distinct sampleHdr

/-! ## C6 -/

/-- C6, counterexample: on the header with exactly slots 0 and 1 live and no
naming source the code names the sections ".text" and ".text2", while the
specification's rule on the final list gives ".text2" and ".text3". -/
theorem C6_spec_rule_counterexample :
    ∃ secs, Dol.sections twoTextHdr none = .ok secs ∧
      secs.map (fun s => s.name) = [".text", ".text2"] ∧
      (List.range secs.length).map (specName secs) = [".text2", ".text3"] :=
  ⟨_, rfl, by decide, by decide⟩

/-- C6, amended: with no naming source, for every header the section loop
completes and the name of every section is the bare base token if no section of
the same classification precedes it (rank 0), and otherwise the base token
followed by the decimal numeral of rank + 1, where rank is the number of
sections of the same classification with a lower slot index. -/
theorem C6_rank_rule (hdr : DolHeaderRaw) :
    ∃ secs, Dol.sections hdr none = .ok secs ∧
      ∀ j (hj : j < secs.length), secs[j].name = rankName secs j := by
  refine ⟨_, sections_none_ok hdr, ?_⟩
  intro j hj
  rw [defaultSecs_name hdr _ j hj]
  simp only [rankName, specRank, List.getElem?_eq_getElem hj, ordinalName, sameKind]
  by_cases h0 : List.countP (fun s => s.isText == (defaultSecs hdr DOL_MAX_SECTION_COUNT)[j].isText)
      (List.take j (defaultSecs hdr DOL_MAX_SECTION_COUNT)) = 0
  · simp [h0]
  · simp [h0]

theorem C6_rank_rule_witness :
    ∃ secs, Dol.sections twoTextHdr none = .ok secs ∧
      ∀ j (hj : j < secs.length), secs[j].name = rankName secs j :=
  C6_rank_rule twoTextHdr

/-! ## C7 -/

/-- A live slot `i < n` sits in the list of live slots at the position given by
the number of live slots below it. -/
theorem liveBelow_position (h : DolHeaderRaw) (i : Nat) (hl : h.live i = true) :
    ∀ n, i < n → (h.liveBelow n)[(h.liveBelow i).length]? = some i := by
  intro n
  induction n with
  | zero => intro hi; omega
  | succ n ih =>
    intro hi
    rw [liveBelow_succ]
    by_cases hin : i = n
    · subst hin
      rw [if_pos hl]
      simp
    · have hi1 : i < n := by omega
      have hpos := ih hi1
      have hlt : (h.liveBelow i).length < (h.liveBelow n).length := by
        by_contra hge
        rw [List.getElem?_eq_none (by omega)] at hpos
        cases hpos
      rw [List.getElem?_append_left hlt]
      exact hpos

theorem liveBelow_all (h : DolHeaderRaw) :
    ∀ i, (∀ k, k < i → h.live k = true) → (h.liveBelow i).length = i := by
  intro i
  induction i with
  | zero => intro _; rfl
  | succ i ih =>
    intro hall
    rw [liveBelow_succ, if_pos (hall i (Nat.lt_succ_self i)), List.length_append,
      ih (fun k hk => hall k (Nat.lt_succ_of_lt hk))]
    rfl

/-- C7, counterexample: slot 0 is absent and slot 1 is live; the naming source
has module 0 with entry 1 equal to ".main", yet the section built from slot 1
is named ".init", the source's entry 0. -/
theorem C7_slot_lookup_counterexample :
    gapHdr.liveSlots = [1] ∧
    (sampleNames.modules 0).bind (fun m => m.sections 1) = some ".main" ∧
    Dol.sections gapHdr (some sampleNames) = .ok
      [{ offset := 0x2000, address := 0x80005000, length := 0x400, isText := true,
         name := ".init" }] :=
  ⟨by decide, rfl, rfl⟩

/-- C7, amended: when the naming source has module 0 with an entry for every
position of the section list, the section loop completes and the section built
from a live slot i sits at the position j that counts the live slots below i,
and is named with the source's entry j verbatim; this is the source's entry for
slot index i when no slot below i is absent. -/
theorem C7_source_name_by_position (hdr : DolHeaderRaw) (extra_info : Option ExtraInfo)
    (m : ModuleInfo) (hm : extra_info.bind (fun e => e.modules 0) = some m)
    (hsrc : ∀ j, j < hdr.liveSlots.length → ∃ nm, m.sections j = some nm)
    (i : Nat) (hi : i < 18) (hl : hdr.live i = true) :
    ∃ secs, Dol.sections hdr extra_info = .ok secs ∧
      (secs[(hdr.liveBelow i).length]?).map (fun s => (s.offset, s.address, s.length)) =
        some (hdr.slotTriple i) ∧
      (secs[(hdr.liveBelow i).length]?).map (fun s => s.name) =
        m.sections (hdr.liveBelow i).length ∧
      ((∀ k, k < i → hdr.live k = true) →
        (secs[(hdr.liveBelow i).length]?).map (fun s => s.name) = m.sections i) := by
  obtain ⟨secs, hs⟩ := buildSecs_ok hdr extra_info DOL_MAX_SECTION_COUNT (by decide)
    (fun m1 hm1 j hj => by
      rw [hm] at hm1
      cases hm1
      exact hsrc j hj)
  obtain ⟨names, hlen, hz, hnm⟩ := buildSecs_shape hdr extra_info DOL_MAX_SECTION_COUNT
    (by decide) secs hs
  have hpos := liveBelow_position hdr i hl DOL_MAX_SECTION_COUNT hi
  have hjlt : (hdr.liveBelow i).length < names.length := by
    by_contra hge
    rw [List.getElem?_eq_none (by omega)] at hpos
    cases hpos
  have hname := hnm m hm _ hjlt
  have hsec : secs[(hdr.liveBelow i).length]? =
      some (slotSection hdr i names[(hdr.liveBelow i).length]) := by
    rw [hz, List.getElem?_zipWith, hpos, List.getElem?_eq_getElem hjlt]
  have hnameEq : (secs[(hdr.liveBelow i).length]?).map (fun s => s.name) =
      m.sections (hdr.liveBelow i).length := by
    rw [hsec, hname, List.getElem?_eq_getElem hjlt]
    rfl
  refine ⟨secs, hs, ?_, hnameEq, ?_⟩
  · rw [hsec]; rfl
  · intro hall
    rw [hnameEq, liveBelow_all hdr i hall]

theorem C7_source_name_by_position_witness :
    (some sampleNames).bind (fun e => e.modules 0) =
      some { sections := fun j => [".init", ".main", ".ctors"][j]? } ∧
    sampleHdr.live 8 = true ∧
    ∃ secs, Dol.sections sampleHdr (some sampleNames) = .ok secs ∧
      (secs[(sampleHdr.liveBelow 8).length]?).map (fun s => (s.offset, s.address, s.length)) =
        some (sampleHdr.slotTriple 8) ∧
      (secs[(sampleHdr.liveBelow 8).length]?).map (fun s => s.name) =
        [".init", ".main", ".ctors"][(sampleHdr.liveBelow 8).length]? ∧
      ((∀ k, k < 8 → sampleHdr.live k = true) →
        (secs[(sampleHdr.liveBelow 8).length]?).map (fun s => s.name) =
          [".init", ".main", ".ctors"][8]?) :=
  ⟨rfl, by decide,
    C7_source_name_by_position sampleHdr (some sampleNames)
      { sections := fun j => [".init", ".main", ".ctors"][j]? } rfl
      (fun j hj => by
        have h3 : sampleHdr.liveSlots.length = 3 := by decide
        rw [h3] at hj
        match j, hj with
        | 0, _ => exact ⟨_, rfl⟩
        | 1, _ => exact ⟨_, rfl⟩
        | 2, _ => exact ⟨_, rfl⟩)
      8 (by decide) (by decide)⟩

/-! ## C8 -/

/-- C8, counterexample: on a buffer of 227 bytes the decoder raises no
truncated-input error; its read of the entry-point field at `0xE0` falls
outside the buffer. -/
theorem C8_no_truncation_check_counterexample :
    (List.replicate 227 0).length = 0xE4 - 1 ∧
    DolHeaderRaw.decode (List.replicate 227 0) = .error (.outOfBounds 0xE0) ∧
    DolHeaderRaw.decode (List.replicate 227 0) ≠ .error .truncatedInput := by
  have h : DolHeaderRaw.decode (List.replicate 227 0) = .error (.outOfBounds 0xE0) := by
    rfl
  refine ⟨by decide, h, ?_⟩
  rw [h]
  intro hc
  cases hc

/-- C8, amended: the decoder takes no length and makes no length check. On a
buffer of at least 228 bytes (so also of exactly 228 bytes, all-zero or not) it
succeeds with all 57 fields read: 18 offsets, 18 addresses, 18 lengths and the
three scalars. On a shorter buffer one of its 4-byte reads, which all lie
within the first 228 bytes, falls outside the buffer: the outcome is that
out-of-bounds read and never a truncated-input error. -/
theorem C8_decode_extent (dol : List Nat) :
    (0xE4 ≤ dol.length → ∃ hdr, DolHeaderRaw.decode dol = .ok hdr ∧
      hdr.offsets.length = 18 ∧ hdr.addresses.length = 18 ∧ hdr.lengths.length = 18) ∧
    (dol.length < 0xE4 → ∃ p, DolHeaderRaw.decode dol = .error (.outOfBounds p) ∧
      dol.length < p + 4 ∧ p + 4 ≤ 0xE4) := by
  constructor
  · intro hlen
    refine ⟨headerOf dol, decode_ok dol hlen, ?_, ?_, ?_⟩ <;>
      simp [headerOf, DOL_MAX_SECTION_COUNT]
  · intro hlen
    exact decode_short dol hlen

theorem C8_decode_extent_witness :
    (0xE4 ≤ (List.replicate 228 0).length ∧
      ∃ hdr, DolHeaderRaw.decode (List.replicate 228 0) = .ok hdr ∧
        hdr.offsets.length = 18 ∧ hdr.addresses.length = 18 ∧ hdr.lengths.length = 18) ∧
    ((List.replicate 227 0).length < 0xE4 ∧
      ∃ p, DolHeaderRaw.decode (List.replicate 227 0) = .error (.outOfBounds p) ∧
        (List.replicate 227 0).length < p + 4 ∧ p + 4 ≤ 0xE4) :=
  ⟨⟨by decide, (C8_decode_extent (List.replicate 228 0)).1 (by decide)⟩,
   ⟨by decide, (C8_decode_extent (List.replicate 227 0)).2 (by decide)⟩⟩

/-! ## C9 -/

theorem getD_lt_256 (dol : List Nat) (hb : ∀ b ∈ dol, b < 256) (p : Nat) :
    dol.getD p 0 < 256 := by
  by_cases hp : p < dol.length
  · rw [List.getD_eq_getElem _ _ hp]
    exact hb _ (List.getElem_mem hp)
  · rw [List.getD_eq_default _ _ (by omega)]
    decide

theorem be32At_eq_bigEndian (dol : List Nat) (hb : ∀ b ∈ dol, b < 256) (p : Nat) :
    be32At dol p = bigEndian dol p := by
  simp only [be32At, be32, bigEndian, Nat.mod_eq_of_lt (getD_lt_256 dol hb _)]

/-- C9: for every buffer of at least 228 bytes (each byte below 256) the header
decodes, and for every i in 0..17 its offsets[i], addresses[i] and lengths[i]
are the big-endian values of the four bytes at 0x00 + 4i, 0x48 + 4i and
0x90 + 4i, and bss_address, bss_length and entry_point are the big-endian values
of the four bytes at 0xD8, 0xDC and 0xE0; the header member of the object under
construction is this header; a read of the bytes 00 00 01 00 gives 256. -/
theorem C9_big_endian_fields (dol : List Nat) (hlen : 228 ≤ dol.length)
    (hb : ∀ b ∈ dol, b < 256) :
    ∃ hdr, DolHeaderRaw.decode dol = .ok hdr ∧
      (∀ i, i < 18 →
        hdr.offsets[i]? = some (bigEndian dol (0x00 + 4 * i)) ∧
        hdr.addresses[i]? = some (bigEndian dol (0x48 + 4 * i)) ∧
        hdr.lengths[i]? = some (bigEndian dol (0x90 + 4 * i))) ∧
      hdr.bss_address = bigEndian dol 0xD8 ∧
      hdr.bss_length = bigEndian dol 0xDC ∧
      hdr.entry_point = bigEndian dol 0xE0 ∧
      (∀ size, (Dol.build dol size none).map (fun d => d.hdr) = .ok hdr) ∧
      (∀ size extra_info d, Dol.build dol size extra_info = .ok d → d.hdr = hdr) ∧
      (∀ p, p + 4 ≤ dol.length → dol.getD p 0 = 0 → dol.getD (p + 1) 0 = 0 →
        dol.getD (p + 2) 0 = 1 → dol.getD (p + 3) 0 = 0 → readbe32 dol p = .ok 256) := by
  refine ⟨headerOf dol, decode_ok dol hlen, ?_, ?_, ?_, ?_, ?_, ?_, ?_⟩
  · intro i hi
    have hi1 : i < (List.range DOL_MAX_SECTION_COUNT).length := by
      simpa [DOL_MAX_SECTION_COUNT] using hi
    simp only [headerOf, List.getElem?_map, List.getElem?_eq_getElem hi1, List.getElem_range,
      Option.map_some', be32At_eq_bigEndian dol hb, DOLHDR_OFFSETS_OFF, DOLHDR_OFFSET_SIZE,
      DOLHDR_ADDRESSES_OFF, DOLHDR_ADDRESS_SIZE, DOLHDR_SIZES_OFF, DOLHDR_SIZE_SIZE,
      Nat.mul_comm i 4, and_self]
  · exact be32At_eq_bigEndian dol hb _
  · exact be32At_eq_bigEndian dol hb _
  · exact be32At_eq_bigEndian dol hb _
  · intro size
    simp only [Dol.build, decode_ok dol hlen, sections_none_ok, bind, Except.bind, Except.map]
  · intro size extra_info d hd
    have h1 := (build_ok dol size extra_info d hd).1
    rw [decode_ok dol hlen] at h1
    injection h1 with h1
    exact h1.symm
  · intro p hp h0 h1 h2 h3
    rw [readbe32_ok dol p hp]
    simp only [be32At, be32, h0, h1, h2, h3]
    rfl

theorem C9_big_endian_fields_witness :
    228 ≤ entryDol.length ∧ (∀ b ∈ entryDol, b < 256) ∧
    ∃ hdr, DolHeaderRaw.decode entryDol = .ok hdr ∧
      (∀ i, i < 18 →
        hdr.offsets[i]? = some (bigEndian entryDol (0x00 + 4 * i)) ∧
        hdr.addresses[i]? = some (bigEndian entryDol (0x48 + 4 * i)) ∧
        hdr.lengths[i]? = some (bigEndian entryDol (0x90 + 4 * i))) ∧
      hdr.bss_address = bigEndian entryDol 0xD8 ∧
      hdr.bss_length = bigEndian entryDol 0xDC ∧
      hdr.entry_point = bigEndian entryDol 0xE0 ∧
      (∀ size, (Dol.build entryDol size none).map (fun d => d.hdr) = .ok hdr) ∧
      (∀ size extra_info d, Dol.build entryDol size extra_info = .ok d → d.hdr = hdr) ∧
      (∀ p, p + 4 ≤ entryDol.length → entryDol.getD p 0 = 0 → entryDol.getD (p + 1) 0 = 0 →
        entryDol.getD (p + 2) 0 = 1 → entryDol.getD (p + 3) 0 = 0 →
        readbe32 entryDol p = .ok 256) :=
  ⟨by decide, by decide, C9_big_endian_fields entryDol (by decide) (by decide)⟩

/-! ## C10 -/

/-- The constructor never returns an object: the destination of its `memcpy` is
the null pointer on every path. -/
theorem construct_not_ok (dol : List Nat) (size : Nat) (extra_info : Option ExtraInfo)
    (d : Dol) : Dol.construct dol size extra_info ≠ .ok d := by
  intro h
  simp only [Dol.construct, Dol.build, bind, Except.bind] at h
  split at h
  · cases h
  · next d0 h0 =>
    split at h0
    · cases h0
    · split at h0
      · cases h0
      · injection h0 with h0
        subst h0
        simp only [memcpy] at h
        cases h

/-- C10: on the 228-byte buffer `sampleDol` with size 228 and no naming source,
the object has `fileSize` 228 and `file` null when the copy is reached, and the
copy `memcpy(file, dol, size)` writes through that null pointer: no owned
buffer holding the input bytes is produced. -/
theorem C10_copy_through_null :
    sampleDol.length = 228 ∧
    (Dol.build sampleDol 228 none).map (fun d => (d.file, d.fileSize)) = .ok (none, 228) ∧
    Dol.construct sampleDol 228 none = .error .nullPointer :=
  ⟨by decide, rfl, rfl⟩

/-! ## C11 -/

theorem getD_take (dol : List Nat) (n p : Nat) (h : p < n) :
    (dol.take n).getD p 0 = dol.getD p 0 := by
  simp only [List.getD_eq_getElem?_getD, List.getElem?_take_of_lt h]

theorem be32At_take (dol : List Nat) (p : Nat) (h : p + 4 ≤ DOLHDR_EXTENT) :
    be32At (dol.take DOLHDR_EXTENT) p = be32At dol p := by
  simp only [be32At, getD_take dol DOLHDR_EXTENT p (by omega),
    getD_take dol DOLHDR_EXTENT (p + 1) (by omega), getD_take dol DOLHDR_EXTENT (p + 2) (by omega),
    getD_take dol DOLHDR_EXTENT (p + 3) (by omega)]

theorem headerOf_take (dol : List Nat) : headerOf (dol.take DOLHDR_EXTENT) = headerOf dol := by
  have ho : ∀ i ∈ List.range DOL_MAX_SECTION_COUNT,
      be32At (dol.take DOLHDR_EXTENT) (DOLHDR_OFFSETS_OFF + i * DOLHDR_OFFSET_SIZE) =
        be32At dol (DOLHDR_OFFSETS_OFF + i * DOLHDR_OFFSET_SIZE) := by
    intro i hi
    have hi1 : i < 18 := by simpa [DOL_MAX_SECTION_COUNT] using hi
    exact be32At_take dol _ (by
      simp only [DOLHDR_OFFSETS_OFF, DOLHDR_OFFSET_SIZE, DOLHDR_EXTENT, DOLHDR_ENTRYPOINT_OFF]
      omega)
  have ha : ∀ i ∈ List.range DOL_MAX_SECTION_COUNT,
      be32At (dol.take DOLHDR_EXTENT) (DOLHDR_ADDRESSES_OFF + i * DOLHDR_ADDRESS_SIZE) =
        be32At dol (DOLHDR_ADDRESSES_OFF + i * DOLHDR_ADDRESS_SIZE) := by
    intro i hi
    have hi1 : i < 18 := by simpa [DOL_MAX_SECTION_COUNT] using hi
    exact be32At_take dol _ (by
      simp only [DOLHDR_ADDRESSES_OFF, DOLHDR_ADDRESS_SIZE, DOLHDR_EXTENT, DOLHDR_ENTRYPOINT_OFF]
      omega)
  have hl : ∀ i ∈ List.range DOL_MAX_SECTION_COUNT,
      be32At (dol.take DOLHDR_EXTENT) (DOLHDR_SIZES_OFF + i * DOLHDR_SIZE_SIZE) =
        be32At dol (DOLHDR_SIZES_OFF + i * DOLHDR_SIZE_SIZE) := by
    intro i hi
    have hi1 : i < 18 := by simpa [DOL_MAX_SECTION_COUNT] using hi
    exact be32At_take dol _ (by
      simp only [DOLHDR_SIZES_OFF, DOLHDR_SIZE_SIZE, DOLHDR_EXTENT, DOLHDR_ENTRYPOINT_OFF]
      omega)
  simp only [headerOf, List.map_congr_left ho, List.map_congr_left ha, List.map_congr_left hl,
    be32At_take dol DOLHDR_BSSADDR_OFF (by decide), be32At_take dol DOLHDR_BSSLEN_OFF (by decide),
    be32At_take dol DOLHDR_ENTRYPOINT_OFF (by decide)]

/-- The decoder's outcome is that of decoding the first `0xE4` bytes alone. -/
theorem decode_take (dol : List Nat) :
    DolHeaderRaw.decode (dol.take DOLHDR_EXTENT) = DolHeaderRaw.decode dol := by
  by_cases h : DOLHDR_EXTENT ≤ dol.length
  · have h1 : DOLHDR_EXTENT ≤ (dol.take DOLHDR_EXTENT).length := by
      rw [List.length_take]; omega
    rw [decode_ok _ h1, decode_ok _ h, headerOf_take]
  · rw [List.take_of_length_le (by omega)]

theorem mem_liveSlots (h : DolHeaderRaw) (i : Nat) (hi : i < 18) (hl : h.live i = true) :
    i ∈ h.liveSlots := by
  simp only [DolHeaderRaw.liveSlots, DolHeaderRaw.liveBelow, List.mem_filter, List.mem_range,
    DOL_MAX_SECTION_COUNT]
  exact ⟨hi, hl⟩

/-- C11: for any two buffers that agree on their first 228 bytes, any two size
arguments and the same naming argument, the decoder's outcome is the same and
the constructor builds the same header and the same section list (offsets,
addresses, lengths, isText, names); when the buffer has at least 228 bytes and
no naming source is given they are built whatever the size; and every live
slot of the header is retained as a section, whatever the size argument is, so
also when its offset + length exceeds fileSize. -/
theorem C11_size_independent (dol1 dol2 : List Nat) (size1 size2 : Nat)
    (extra_info : Option ExtraInfo) (hagree : dol1.take 0xE4 = dol2.take 0xE4) :
    DolHeaderRaw.decode dol1 = DolHeaderRaw.decode dol2 ∧
    (Dol.build dol1 size1 extra_info).map (fun d => (d.hdr, d.secs)) =
      (Dol.build dol2 size2 extra_info).map (fun d => (d.hdr, d.secs)) ∧
    (0xE4 ≤ dol1.length → ∃ d, Dol.build dol1 size1 none = .ok d) ∧
    ∀ d, Dol.build dol1 size1 extra_info = .ok d → d.fileSize = size1 ∧
      ∀ i, i < 18 → d.hdr.offsets.getD i 0 ≠ 0 → d.hdr.addresses.getD i 0 ≠ 0 →
        d.hdr.lengths.getD i 0 ≠ 0 →
        (d.hdr.offsets.getD i 0, d.hdr.addresses.getD i 0, d.hdr.lengths.getD i 0) ∈
          d.secs.map (fun s => (s.offset, s.address, s.length)) := by
  have hdec : DolHeaderRaw.decode dol1 = DolHeaderRaw.decode dol2 := by
    rw [← decode_take dol1, ← decode_take dol2]
    exact congrArg DolHeaderRaw.decode hagree
  refine ⟨hdec, ?_, ?_, ?_⟩
  · simp only [Dol.build, hdec, bind, Except.bind]
    cases DolHeaderRaw.decode dol2 with
    | error e => rfl
    | ok hdr =>
      dsimp only
      cases Dol.sections hdr extra_info with
      | error e => rfl
      | ok secs => rfl
  · intro hlen
    exact ⟨_, build_none_ok dol1 size1 hlen⟩
  · intro d hd
    obtain ⟨_, hs, _, hsize⟩ := build_ok dol1 size1 extra_info d hd
    refine ⟨hsize, ?_⟩
    intro i hi ho ha hl
    have hmap := sections_map _ d.hdr extra_info d.secs hs
      (fun s => (s.offset, s.address, s.length)) d.hdr.slotTriple (fun _ _ => rfl)
    rw [hmap]
    have hlive : d.hdr.live i = true := by
      simp only [DolHeaderRaw.live, Bool.and_eq_true, decide_eq_true_eq]
      exact ⟨⟨ho, ha⟩, hl⟩
    exact List.mem_map.mpr ⟨i, mem_liveSlots d.hdr i hi hlive, rfl⟩

theorem C11_size_independent_witness :
    sampleDol.take 0xE4 = (sampleDol ++ [9, 9, 9]).take 0xE4 ∧
    DolHeaderRaw.decode sampleDol = DolHeaderRaw.decode (sampleDol ++ [9, 9, 9]) ∧
    (Dol.build sampleDol 1 none).map (fun d => (d.hdr, d.secs)) =
      (Dol.build (sampleDol ++ [9, 9, 9]) 231 none).map (fun d => (d.hdr, d.secs)) ∧
    (0xE4 ≤ sampleDol.length → ∃ d, Dol.build sampleDol 1 none = .ok d) ∧
    ∀ d, Dol.build sampleDol 1 none = .ok d → d.fileSize = 1 ∧
      ∀ i, i < 18 → d.hdr.offsets.getD i 0 ≠ 0 → d.hdr.addresses.getD i 0 ≠ 0 →
        d.hdr.lengths.getD i 0 ≠ 0 →
        (d.hdr.offsets.getD i 0, d.hdr.addresses.getD i 0, d.hdr.lengths.getD i 0) ∈
          d.secs.map (fun s => (s.offset, s.address, s.length)) :=
  ⟨by decide, C11_size_independent sampleDol (sampleDol ++ [9, 9, 9]) 1 231 none (by decide)⟩

/-! ## C12 -/

/-- C12, counterexample: the naming source has module 0 with an entry for
position 0 only; for the second section the code evaluates `sections[1]`, for
which the source has no entry, and does not reach the generated default name:
the builder's outcome is that lookup, not a list with the name ".text2". -/
theorem C12_no_fallback_counterexample :
    (shortNames.modules 0).bind (fun m => m.sections 1) = none ∧
    Dol.sections twoTextHdr (some shortNames) = .error (.missingEntry 1) ∧
    (Dol.sections twoTextHdr none).map (fun secs => secs.map (fun s => s.name)) =
      .ok [".text", ".text2"] :=
  ⟨rfl, rfl, rfl⟩

theorem sections_length (hdr : DolHeaderRaw) (extra_info : Option ExtraInfo)
    (secs : List DolSection) (hs : Dol.sections hdr extra_info = .ok secs) :
    secs.length = hdr.liveSlots.length := by
  have hmap := sections_map Unit hdr extra_info secs hs (fun _ => ()) (fun _ => ())
    (fun _ _ => rfl)
  have := congrArg List.length hmap
  simpa using this

/-- Under a naming source with module 0, every section of a completed run carries
the source's entry for its list position. -/
theorem sections_source_names (hdr : DolHeaderRaw) (extra_info : Option ExtraInfo)
    (m : ModuleInfo) (hm : extra_info.bind (fun e => e.modules 0) = some m)
    (secs : List DolSection) (hs : Dol.sections hdr extra_info = .ok secs)
    (j : Nat) (hj : j < secs.length) : m.sections j = some secs[j].name := by
  obtain ⟨names, hlen, hz, hnm⟩ := buildSecs_shape hdr extra_info DOL_MAX_SECTION_COUNT
    (by decide) secs hs
  have hsl : secs.length = names.length := by
    rw [hz, List.length_zipWith, hlen, Nat.min_self]
  have hj1 : j < names.length := by omega
  have hj2 : j < (hdr.liveBelow DOL_MAX_SECTION_COUNT).length := by omega
  have hget : secs[j]? = some (slotSection hdr (hdr.liveBelow DOL_MAX_SECTION_COUNT)[j]
      names[j]) := by
    rw [hz, List.getElem?_zipWith, List.getElem?_eq_getElem hj2,
      List.getElem?_eq_getElem hj1]
  rw [List.getElem?_eq_getElem hj] at hget
  injection hget with hget
  rw [hnm m hm j hj1, List.getElem?_eq_getElem hj1, hget]
  rfl

/-- The generated name of the section at position `j`, written out: the bare base
token when no section of the same kind precedes it, and otherwise the base
token followed by the numeral of one more than their number. -/
theorem defaultSecs_name_explicit (hdr : DolHeaderRaw) (n j : Nat)
    (hj : j < (defaultSecs hdr n).length) :
    ((defaultSecs hdr n)[j]).name =
      if ((defaultSecs hdr n).take j).countP
          (fun s => s.isText == ((defaultSecs hdr n)[j]).isText) = 0 then
        (if ((defaultSecs hdr n)[j]).isText then ".text" else ".data")
      else
        (if ((defaultSecs hdr n)[j]).isText then ".text" else ".data") ++
          toString (((defaultSecs hdr n).take j).countP
            (fun s => s.isText == ((defaultSecs hdr n)[j]).isText) + 1) := by
  rw [defaultSecs_name hdr n j hj]
  simp only [ordinalName, sameKind, baseName, DEF_DOL_TEXT_SECTION_NAME,
    DEF_DOL_DATA_SECTION_NAME]
  by_cases h0 : List.countP (fun s => s.isText == ((defaultSecs hdr n)[j]).isText)
      (List.take j (defaultSecs hdr n)) = 0
  · simp [h0]
  · simp [h0]

/-- C12, amended: when the naming source has no entry for module key 0 (or no
source is supplied) the builder does not fail, its result is the one with no
naming source, it has one section per live slot, and every section carries the
generated default name (the bare base token when no section of its kind
precedes it, otherwise the base token followed by the numeral of one more than
the number of preceding sections of its kind); when the source has module 0
with an entry for every position of the section list, the builder does not
fail either, it has one section per live slot, and the name of the section at
every position j is the source's entry j. -/
theorem C12_default_without_module_zero (hdr : DolHeaderRaw) (extra_info : Option ExtraInfo) :
    (extra_info.bind (fun e => e.modules 0) = none →
      ∃ secs, Dol.sections hdr extra_info = .ok secs ∧
        Dol.sections hdr none = .ok secs ∧
        secs.length = hdr.liveSlots.length ∧
        ∀ j (hj : j < secs.length), secs[j].name =
          if (secs.take j).countP (fun s => s.isText == secs[j].isText) = 0 then
            (if secs[j].isText then ".text" else ".data")
          else
            (if secs[j].isText then ".text" else ".data") ++
              toString ((secs.take j).countP (fun s => s.isText == secs[j].isText) + 1)) ∧
    (∀ m, extra_info.bind (fun e => e.modules 0) = some m →
      (∀ j, j < hdr.liveSlots.length → ∃ nm, m.sections j = some nm) →
      ∃ secs, Dol.sections hdr extra_info = .ok secs ∧
        secs.length = hdr.liveSlots.length ∧
        ∀ j (hj : j < secs.length), m.sections j = some secs[j].name) := by
  constructor
  · intro hnone
    have h1 : Dol.sections hdr extra_info = .ok (defaultSecs hdr DOL_MAX_SECTION_COUNT) :=
      buildSecs_default hdr extra_info hnone DOL_MAX_SECTION_COUNT (by decide)
    exact ⟨_, h1, sections_none_ok hdr, sections_length hdr extra_info _ h1,
      fun j hj => defaultSecs_name_explicit hdr _ j hj⟩
  · intro m hm hsrc
    obtain ⟨secs, hs⟩ := buildSecs_ok hdr extra_info DOL_MAX_SECTION_COUNT (by decide)
      (fun m1 hm1 j hj => by
        rw [hm] at hm1
        cases hm1
        exact hsrc j hj)
    exact ⟨secs, hs, sections_length hdr extra_info secs hs,
      fun j hj => sections_source_names hdr extra_info m hm secs hs j hj⟩

theorem C12_default_without_module_zero_witness :
    ((some noModuleZero).bind (fun e => e.modules 0) = none ∧
      (Dol.sections sampleHdr (some noModuleZero)).map (fun secs => secs.map (fun s => s.name)) =
        .ok [".text", ".text2", ".data"] ∧
      ∃ secs, Dol.sections sampleHdr (some noModuleZero) = .ok secs ∧
        Dol.sections sampleHdr none = .ok secs ∧
        secs.length = sampleHdr.liveSlots.length ∧
        ∀ j (hj : j < secs.length), secs[j].name =
          if (secs.take j).countP (fun s => s.isText == secs[j].isText) = 0 then
            (if secs[j].isText then ".text" else ".data")
          else
            (if secs[j].isText then ".text" else ".data") ++
              toString ((secs.take j).countP (fun s => s.isText == secs[j].isText) + 1)) ∧
    ((some sampleNames).bind (fun e => e.modules 0) =
        some { sections := fun j => [".init", ".main", ".ctors"][j]? } ∧
      (∀ j, j < sampleHdr.liveSlots.length →
        ∃ nm, [".init", ".main", ".ctors"][j]? = some nm) ∧
      (Dol.sections sampleHdr (some sampleNames)).map (fun secs => secs.map (fun s => s.name)) =
        .ok [".init", ".main", ".ctors"] ∧
      ∃ secs, Dol.sections sampleHdr (some sampleNames) = .ok secs ∧
        secs.length = sampleHdr.liveSlots.length ∧
        ∀ j (hj : j < secs.length), [".init", ".main", ".ctors"][j]? = some secs[j].name) :=
  ⟨⟨rfl, rfl, (C12_default_without_module_zero sampleHdr (some noModuleZero)).1 rfl⟩,
   ⟨rfl,
    (fun j hj => by
      have h3 : sampleHdr.liveSlots.length = 3 := by decide
      rw [h3] at hj
      match j, hj with
      | 0, _ => exact ⟨_, rfl⟩
      | 1, _ => exact ⟨_, rfl⟩
      | 2, _ => exact ⟨_, rfl⟩),
    rfl,
    (C12_default_without_module_zero sampleHdr (some sampleNames)).2
      { sections := fun j => [".init", ".main", ".ctors"][j]? } rfl
      (fun j hj => by
        have h3 : sampleHdr.liveSlots.length = 3 := by decide
        rw [h3] at hj
        match j, hj with
        | 0, _ => exact ⟨_, rfl⟩
        | 1, _ => exact ⟨_, rfl⟩
        | 2, _ => exact ⟨_, rfl⟩)⟩⟩

/-! ## C16 -/

theorem liveBelow_length_lt (h : DolHeaderRaw) :
    ∀ i, (∃ k, k < i ∧ h.live k = false) → (h.liveBelow i).length < i := by
  intro i
  induction i with
  | zero => intro ⟨k, hk, _⟩; omega
  | succ n ih =>
    intro ⟨k, hk, hdead⟩
    rw [liveBelow_succ, List.length_append]
    have hle := liveBelow_length_le h n
    by_cases hkn : k = n
    · subst hkn
      simp [hdead]
      omega
    · have := ih ⟨k, by omega, hdead⟩
      split
      · simp only [List.length_singleton]; omega
      · simp only [List.length_nil]; omega

/-- The section built from a live slot sits at the position that counts the live
slots below it; under a naming source with module 0 its name is the source's
entry for that position. -/
theorem sections_at_position (hdr : DolHeaderRaw) (extra_info : Option ExtraInfo)
    (secs : List DolSection) (hs : Dol.sections hdr extra_info = .ok secs)
    (i : Nat) (hi : i < 18) (hl : hdr.live i = true) :
    hdr.liveSlots[(hdr.liveBelow i).length]? = some i ∧
    ∃ nm, secs[(hdr.liveBelow i).length]? = some (slotSection hdr i nm) ∧
      ∀ m, extra_info.bind (fun e => e.modules 0) = some m →
        m.sections (hdr.liveBelow i).length = some nm := by
  obtain ⟨names, hlen, hz, hnm⟩ := buildSecs_shape hdr extra_info DOL_MAX_SECTION_COUNT
    (by decide) secs hs
  have hpos := liveBelow_position hdr i hl DOL_MAX_SECTION_COUNT hi
  have hjlt : (hdr.liveBelow i).length < names.length := by
    by_contra hge
    rw [List.getElem?_eq_none (by omega)] at hpos
    cases hpos
  refine ⟨hpos, names[(hdr.liveBelow i).length], ?_, ?_⟩
  · rw [hz, List.getElem?_zipWith, hpos, List.getElem?_eq_getElem hjlt]
  · intro m hm
    rw [hnm m hm _ hjlt, List.getElem?_eq_getElem hjlt]

/-- C16: when a naming source with module key 0 is supplied and the section loop
completes (it does when module 0 has an entry for every list position), the
section at position j of the section list is named with the source's entry j
of module 0; and for a live slot i with an absent slot below it, the section
built from slot i sits at a position j < i and carries the source's entry j. -/
theorem C16_name_by_list_position (hdr : DolHeaderRaw) (extra_info : Option ExtraInfo)
    (m : ModuleInfo) (hm : extra_info.bind (fun e => e.modules 0) = some m) :
    ((∀ j, j < hdr.liveSlots.length → ∃ nm, m.sections j = some nm) →
      ∃ secs, Dol.sections hdr extra_info = .ok secs) ∧
    ∀ secs, Dol.sections hdr extra_info = .ok secs →
      (∀ j (hj : j < secs.length), m.sections j = some secs[j].name) ∧
      ∀ i k, i < 18 → hdr.live i = true → k < i → hdr.live k = false →
        ∃ j s, j < i ∧ hdr.liveSlots[j]? = some i ∧ secs[j]? = some s ∧
          (s.offset, s.address, s.length) = hdr.slotTriple i ∧
          m.sections j = some s.name := by
  constructor
  · intro hsrc
    exact buildSecs_ok hdr extra_info DOL_MAX_SECTION_COUNT (by decide)
      (fun m1 hm1 j hj => by
        rw [hm] at hm1
        cases hm1
        exact hsrc j hj)
  · intro secs hs
    constructor
    · intro j hj
      obtain ⟨names, hlen, hz, hnm⟩ := buildSecs_shape hdr extra_info DOL_MAX_SECTION_COUNT
        (by decide) secs hs
      have hsl : secs.length = names.length := by
        rw [hz, List.length_zipWith, hlen, Nat.min_self]
      have hj1 : j < names.length := by omega
      have hj2 : j < (hdr.liveBelow DOL_MAX_SECTION_COUNT).length := by omega
      have hget : secs[j]? = some (slotSection hdr (hdr.liveBelow DOL_MAX_SECTION_COUNT)[j]
          names[j]) := by
        rw [hz, List.getElem?_zipWith, List.getElem?_eq_getElem hj2,
          List.getElem?_eq_getElem hj1]
      rw [List.getElem?_eq_getElem hj] at hget
      injection hget with hget
      rw [hnm m hm j hj1, List.getElem?_eq_getElem hj1, hget]
      rfl
    · intro i k hi hl hk hdead
      obtain ⟨hpos, nm, hsec, hname⟩ := sections_at_position hdr extra_info secs hs i hi hl
      exact ⟨_, _, liveBelow_length_lt hdr i ⟨k, hk, hdead⟩, hpos, hsec, rfl, hname m hm⟩

theorem C16_name_by_list_position_witness :
    (some sampleNames).bind (fun e => e.modules 0) =
      some { sections := fun j => [".init", ".main", ".ctors"][j]? } ∧
    Dol.sections gapHdr (some sampleNames) = .ok
      [{ offset := 0x2000, address := 0x80005000, length := 0x400, isText := true,
         name := ".init" }] ∧
    (∀ j, j < 1 → [".init", ".main", ".ctors"][j]? = some ".init") ∧
    ∀ i k, i < 18 → gapHdr.live i = true → k < i → gapHdr.live k = false →
      ∃ j s, j < i ∧ gapHdr.liveSlots[j]? = some i ∧
        [({ offset := 0x2000, address := 0x80005000, length := 0x400, isText := true,
            name := ".init" } : DolSection)][j]? = some s ∧
        (s.offset, s.address, s.length) = gapHdr.slotTriple i ∧
        [".init", ".main", ".ctors"][j]? = some s.name :=
  ⟨rfl, rfl,
    fun j hj => by
      have h := ((C16_name_by_list_position gapHdr (some sampleNames)
        { sections := fun j => [".init", ".main", ".ctors"][j]? } rfl).2 _ rfl).1 j hj
      match j, hj with
      | 0, _ => exact h,
    ((C16_name_by_list_position gapHdr (some sampleNames)
        { sections := fun j => [".init", ".main", ".ctors"][j]? } rfl).2 _ rfl).2⟩

/-! ## C15 -/

theorem buildSecs_isText (h : DolHeaderRaw) (extra_info : Option ExtraInfo) (n : Nat)
    (hn : n ≤ 256) (secs : List DolSection) (hs : Dol.buildSecs h extra_info n = .ok secs) :
    secs.map (fun s => s.isText) = (h.liveBelow n).map (fun i => decide (i < 7)) := by
  obtain ⟨names, hlen, hz, _⟩ := buildSecs_shape h extra_info n hn secs hs
  rw [hz]
  exact map_zipWith_slotSection h _ _ (fun _ _ => rfl) _ names hlen

theorem buildSecs_sameKind (h : DolHeaderRaw) (extra_info : Option ExtraInfo) (n : Nat)
    (hn : n ≤ 256) (secs : List DolSection) (hs : Dol.buildSecs h extra_info n = .ok secs)
    (b : Bool) :
    sameKind b secs = (h.liveBelow n).countP (fun i => decide (i < 7) == b) := by
  have h1 := congrArg (List.countP (fun t => t == b)) (buildSecs_isText h extra_info n hn secs hs)
  simp only [List.countP_map] at h1
  exact h1

theorem liveBelow_countP_le (h : DolHeaderRaw) (n m : Nat) (hnm : n ≤ m) (p : Nat → Bool) :
    (h.liveBelow n).countP p ≤ (List.range m).countP p :=
  Nat.le_trans (List.Sublist.countP_le p (List.filter_sublist (List.range n)))
    (List.Sublist.countP_le p (List.range_sublist.mpr hnm))

theorem liveSlots_pairwise (h : DolHeaderRaw) : h.liveSlots.Pairwise (fun a b => a < b) :=
  List.Pairwise.filter _ (List.pairwise_lt_range _)

theorem sections_isText_getElem (h : DolHeaderRaw) (extra_info : Option ExtraInfo)
    (secs : List DolSection) (hs : Dol.sections h extra_info = .ok secs) (j : Nat)
    (hj : j < secs.length) :
    ∃ hj1 : j < h.liveSlots.length, secs[j].isText = decide (h.liveSlots[j] < 7) := by
  have hmap := buildSecs_isText h extra_info DOL_MAX_SECTION_COUNT (by decide) secs hs
  have hlen : secs.length = h.liveSlots.length := by
    have := congrArg List.length hmap
    simpa [DolHeaderRaw.liveSlots] using this
  have hj1 : j < h.liveSlots.length := by omega
  refine ⟨hj1, ?_⟩
  have := congrArg (fun l => l[j]?) hmap
  simp only [List.getElem?_map, List.getElem?_eq_getElem hj] at this
  have hj2 : j < (h.liveBelow DOL_MAX_SECTION_COUNT).length := hj1
  rw [List.getElem?_eq_getElem hj2] at this
  simpa using this

/-- C15: whenever the section loop completes, the list holds at most 7 text and
at most 11 data sections and every text section comes before every data
section; with no naming source every name is the bare base token or the base
token followed by the numeral of a k with 2 ≤ k ≤ 7 (text) or 2 ≤ k ≤ 11 (data);
and at every call of setSectionName made by the loop (slot i live, the sections
of the slots below i already in the list) both 8-bit counters end at the exact
number of earlier sections of the same kind, which is at most 6 for text and at
most 10 for data, so no increment wraps. -/
theorem C15_kind_bounds (hdr : DolHeaderRaw) :
    (∀ extra_info secs, Dol.sections hdr extra_info = .ok secs →
      secs.countP (fun s => s.isText) ≤ DOL_MAX_TEXT_SECTION_COUNT ∧
      secs.countP (fun s => !s.isText) ≤ DOL_MAX_DATA_SECTION_COUNT ∧
      ∀ i j (hi : i < secs.length) (hj : j < secs.length),
        secs[i].isText = true → secs[j].isText = false → i < j) ∧
    (∃ secs, Dol.sections hdr none = .ok secs ∧ ∀ s ∈ secs,
      s.name = (if s.isText then ".text" else ".data") ∨
      ∃ k, 2 ≤ k ∧ k ≤ (if s.isText then 7 else 11) ∧
        s.name = (if s.isText then ".text" else ".data") ++ toString k) ∧
    (∀ extra_info i secs0, i < 18 → Dol.buildSecs hdr extra_info i = .ok secs0 →
      ∃ c, c = secs0.countP (fun s => s.isText == decide (i < 7)) ∧
        c ≤ (if i < 7 then 6 else 10) ∧
        Dol.countSimilar
          (secs0 ++ [DolSection.new (hdr.offsets.getD i 0) (hdr.addresses.getD i 0)
            (hdr.lengths.getD i 0) (decide (i < 7))])
          secs0.length
          (DolSection.new (hdr.offsets.getD i 0) (hdr.addresses.getD i 0)
            (hdr.lengths.getD i 0) (decide (i < 7))) = (c, c)) := by
  have htext : ∀ extra_info secs, Dol.sections hdr extra_info = .ok secs →
      sameKind true secs ≤ 7 := by
    intro extra_info secs hs
    rw [buildSecs_sameKind hdr extra_info _ (by decide) secs hs true]
    exact Nat.le_trans (liveBelow_countP_le hdr _ 18 (by decide) _) (by decide)
  have hdata : ∀ extra_info secs, Dol.sections hdr extra_info = .ok secs →
      sameKind false secs ≤ 11 := by
    intro extra_info secs hs
    rw [buildSecs_sameKind hdr extra_info _ (by decide) secs hs false]
    exact Nat.le_trans (liveBelow_countP_le hdr _ 18 (by decide) _) (by decide)
  refine ⟨?_, ?_, ?_⟩
  · intro extra_info secs hs
    refine ⟨?_, ?_, ?_⟩
    · have := htext extra_info secs hs
      simpa [sameKind, DOL_MAX_TEXT_SECTION_COUNT] using this
    · have := hdata extra_info secs hs
      simpa [sameKind, DOL_MAX_DATA_SECTION_COUNT] using this
    · intro i j hi hj hti htj
      obtain ⟨hi1, hei⟩ := sections_isText_getElem hdr extra_info secs hs i hi
      obtain ⟨hj1, hej⟩ := sections_isText_getElem hdr extra_info secs hs j hj
      rw [hti] at hei
      rw [htj] at hej
      have hlt : hdr.liveSlots[i] < 7 := by simpa using hei.symm
      have hge : ¬ hdr.liveSlots[j] < 7 := by simpa using hej.symm
      by_contra hnot
      have hji : j ≤ i := by omega
      rcases Nat.lt_or_eq_of_le hji with hlt2 | heq
      · have := List.pairwise_iff_getElem.mp (liveSlots_pairwise hdr) j i hj1 hi1 hlt2
        omega
      · subst heq
        exact hge hlt
  · refine ⟨_, sections_none_ok hdr, ?_⟩
    intro s hs
    obtain ⟨j, hj, rfl⟩ := List.getElem_of_mem hs
    rw [defaultSecs_name hdr _ j hj]
    have hlt := sameKind_take_lt ((defaultSecs hdr DOL_MAX_SECTION_COUNT)[j]).isText
      (defaultSecs hdr DOL_MAX_SECTION_COUNT) j _ hj hj rfl
    rw [List.take_length] at hlt
    have h7 := htext none _ (sections_none_ok hdr)
    have h11 := hdata none _ (sections_none_ok hdr)
    cases hb : ((defaultSecs hdr DOL_MAX_SECTION_COUNT)[j]).isText with
    | true =>
      rw [hb] at hlt
      by_cases h0 : sameKind true (List.take j (defaultSecs hdr DOL_MAX_SECTION_COUNT)) = 0
      · left
        simp [ordinalName, baseName, h0, DEF_DOL_TEXT_SECTION_NAME]
      · right
        refine ⟨sameKind true (List.take j (defaultSecs hdr DOL_MAX_SECTION_COUNT)) + 1,
          by omega, ?_, ?_⟩
        · simp only [if_true]; omega
        · simp [ordinalName, baseName, h0, DEF_DOL_TEXT_SECTION_NAME]
    | false =>
      rw [hb] at hlt
      by_cases h0 : sameKind false (List.take j (defaultSecs hdr DOL_MAX_SECTION_COUNT)) = 0
      · left
        simp [ordinalName, baseName, h0, DEF_DOL_DATA_SECTION_NAME]
      · right
        refine ⟨sameKind false (List.take j (defaultSecs hdr DOL_MAX_SECTION_COUNT)) + 1,
          by omega, ?_, ?_⟩
        · simp only [Bool.false_eq_true, if_false]; omega
        · simp [ordinalName, baseName, h0, DEF_DOL_DATA_SECTION_NAME]
  · intro extra_info i secs0 hi hs
    refine ⟨_, rfl, ?_, ?_⟩
    · have hk := buildSecs_sameKind hdr extra_info i (by omega) secs0 hs (decide (i < 7))
      simp only [sameKind] at hk
      rw [hk]
      by_cases h7 : i < 7
      · rw [if_pos h7]
        exact Nat.le_trans (liveBelow_countP_le hdr i 6 (by omega) _) (by
          simp only [h7, decide_True]; decide)
      · rw [if_neg h7]
        exact Nat.le_trans (liveBelow_countP_le hdr i 17 (by omega) _) (by
          simp only [h7, decide_False]; decide)
    · rw [countSimilar_append]
      have hk := buildSecs_sameKind hdr extra_info i (by omega) secs0 hs (decide (i < 7))
      have hle : sameKind (decide (i < 7)) secs0 ≤ 18 := by
        rw [hk]
        exact Nat.le_trans (liveBelow_countP_le hdr i 18 (by omega) _)
          (Nat.le_trans (List.countP_le_length _) (by simp))
      have hmod : sameKind (decide (i < 7)) secs0 % 256 = sameKind (decide (i < 7)) secs0 :=
        Nat.mod_eq_of_lt (by omega)
      simp only [sameKind] at hmod
      simp only [DolSection.new, sameKind, hmod]

theorem C15_kind_bounds_witness :
    ∃ secs, Dol.sections fullHdr none = .ok secs ∧
      secs.map (fun s => s.name) =
        [".text", ".text2", ".text3", ".text4", ".text5", ".text6", ".text7",
         ".data", ".data2", ".data3", ".data4", ".data5", ".data6", ".data7", ".data8",
         ".data9", ".data10", ".data11"] ∧
      secs.countP (fun s => s.isText) ≤ DOL_MAX_TEXT_SECTION_COUNT ∧
      secs.countP (fun s => !s.isText) ≤ DOL_MAX_DATA_SECTION_COUNT ∧
      ∀ i j (hi : i < secs.length) (hj : j < secs.length),
        secs[i].isText = true → secs[j].isText = false → i < j :=
  ⟨_, rfl, rfl, (C15_kind_bounds fullHdr).1 none _ rfl⟩

/-! ## C17 -/

theorem data_ne_text (x y : String) : ".data" ++ x ≠ ".text" ++ y := by
  intro h
  have h1 := congrArg String.data h
  simp only [String.data_append] at h1
  simp at h1

theorem data_ne_bss (x y : String) : ".data" ++ x ≠ ".bss" ++ y := by
  intro h
  have h1 := congrArg String.data h
  simp only [String.data_append] at h1
  simp at h1

theorem text_ne_bss (x y : String) : ".text" ++ x ≠ ".bss" ++ y := by
  intro h
  have h1 := congrArg String.data h
  simp only [String.data_append] at h1
  simp at h1

theorem ordinalName_base (b : Bool) (k : Nat) :
    ∃ rest, ordinalName b k = (if b then ".text" else ".data") ++ rest := by
  unfold ordinalName
  by_cases h1 : k = 1
  · rw [if_pos h1]
    refine ⟨"", ?_⟩
    cases b <;> rfl
  · rw [if_neg h1]
    refine ⟨toString k, ?_⟩
    cases b <;> rfl

/-- C17: with no naming source, for every header the section loop completes and
every section's name starts with ".text" exactly when its isText flag is true
and starts with ".data" when the flag is false; for a data section the unused
local sectionBaseName is ".bss", yet no name is ".bss" or starts with ".bss". -/
theorem C17_base_token_by_kind (hdr : DolHeaderRaw) :
    ∃ secs, Dol.sections hdr none = .ok secs ∧ ∀ s ∈ secs,
      ((∃ rest, s.name = ".text" ++ rest) ↔ s.isText = true) ∧
      (s.isText = false → ∃ rest, s.name = ".data" ++ rest) ∧
      (s.isText = false → Dol.sectionBaseName s = ".bss") ∧
      s.name ≠ ".bss" ∧ ¬ ∃ rest, s.name = ".bss" ++ rest := by
  refine ⟨_, sections_none_ok hdr, ?_⟩
  intro s hs
  obtain ⟨j, hj, rfl⟩ := List.getElem_of_mem hs
  have hname := defaultSecs_name hdr _ j hj
  obtain ⟨rest, hrest⟩ := ordinalName_base ((defaultSecs hdr DOL_MAX_SECTION_COUNT)[j]).isText
    (sameKind ((defaultSecs hdr DOL_MAX_SECTION_COUNT)[j]).isText
      ((defaultSecs hdr DOL_MAX_SECTION_COUNT).take j) + 1)
  rw [← hname] at hrest
  have hnobss : ¬ ∃ r, ((defaultSecs hdr DOL_MAX_SECTION_COUNT)[j]).name = ".bss" ++ r := by
    intro ⟨r, hr⟩
    rw [hrest] at hr
    cases hb : ((defaultSecs hdr DOL_MAX_SECTION_COUNT)[j]).isText with
    | true => rw [hb] at hr; exact text_ne_bss _ _ hr
    | false => rw [hb] at hr; exact data_ne_bss _ _ hr
  refine ⟨?_, ?_, ?_, ?_, hnobss⟩
  · constructor
    · intro ⟨r, hr⟩
      cases hb : ((defaultSecs hdr DOL_MAX_SECTION_COUNT)[j]).isText with
      | true => rfl
      | false =>
        rw [hrest, hb] at hr
        exact absurd hr (data_ne_text _ _)
    · intro hb
      rw [hb] at hrest
      exact ⟨rest, hrest⟩
  · intro hb
    rw [hb] at hrest
    exact ⟨rest, hrest⟩
  · intro hb
    simp only [Dol.sectionBaseName, hb, DolSection.isBss]
    rfl
  · intro hbss
    exact hnobss ⟨"", hbss⟩

theorem C17_base_token_by_kind_witness :
    ∃ secs, Dol.sections sampleHdr none = .ok secs ∧ ∀ s ∈ secs,
      ((∃ rest, s.name = ".text" ++ rest) ↔ s.isText = true) ∧
      (s.isText = false → ∃ rest, s.name = ".data" ++ rest) ∧
      (s.isText = false → Dol.sectionBaseName s = ".bss") ∧
      s.name ≠ ".bss" ∧ ¬ ∃ rest, s.name = ".bss" ++ rest :=
  C17_base_token_by_kind sampleHdr

/-! ## C13 -/

theorem streamLines_line (l : List StreamItem) (hl : ∀ x ∈ l, x.isNewline = false)
    (rest : List StreamItem) :
    streamLines (l ++ StreamItem.lit "\n" :: rest) = l :: streamLines rest := by
  induction l with
  | nil =>
    show streamLines (StreamItem.lit "\n" :: rest) = _
    simp [streamLines, StreamItem.isNewline]
  | cons x l ih =>
    have hx : x.isNewline = false := hl x (List.mem_cons_self _ _)
    have ih1 := ih (fun y hy => hl y (List.mem_cons_of_mem _ hy))
    show streamLines (x :: (l ++ StreamItem.lit "\n" :: rest)) = _
    simp only [streamLines, hx, ih1]
    rfl

theorem streamLines_emitLines (ls : List (List StreamItem))
    (hls : ∀ l ∈ ls, ∀ x ∈ l, StreamItem.isNewline x = false) :
    streamLines (emitLines ls) = ls := by
  induction ls with
  | nil => rfl
  | cons l ls ih =>
    have h1 : emitLines (l :: ls) = l ++ StreamItem.lit "\n" :: emitLines ls := by
      simp [emitLines]
    rw [h1, streamLines_line l (hls l (List.mem_cons_self _ _)),
      ih (fun l1 h1 => hls l1 (List.mem_cons_of_mem _ h1))]

theorem emitLines_append (as bs : List (List StreamItem)) :
    emitLines (as ++ bs) = emitLines as ++ emitLines bs := by
  simp [emitLines]

theorem headerPrintRows_eq (h : DolHeaderRaw) (os : List StreamItem) :
    ∀ n, DolHeaderRaw.printRows h os n =
      os ++ emitLines ((List.range n).map (fun i => reportRow (h.slotTriple i))) := by
  intro n
  induction n with
  | zero => simp [DolHeaderRaw.printRows, emitLines]
  | succ n ih =>
    rw [DolHeaderRaw.printRows, ih, List.range_succ, List.map_append, emitLines_append,
      List.append_assoc]
    simp [emitLines, reportRow, DolHeaderRaw.slotTriple]

theorem dolPrintRows_eq (d : Dol) (os : List StreamItem) :
    ∀ n, n ≤ d.secs.length → Dol.printRows d os n =
      os ++ emitLines ((d.secs.take n).map
        (fun s => reportRow (s.offset, s.address, s.length))) := by
  intro n
  induction n with
  | zero => intro _; simp [Dol.printRows, emitLines]
  | succ n ih =>
    intro hn
    have hn1 : n < d.secs.length := hn
    have htake : d.secs.take (n + 1) = d.secs.take n ++ [d.secs[n]] := by
      rw [List.take_succ, List.getElem?_eq_getElem hn1]; rfl
    rw [Dol.printRows, List.getElem?_eq_getElem hn1]
    simp only [DolSection.print]
    rw [ih (Nat.le_of_lt hn1), htake, List.map_append, emitLines_append, List.append_assoc]
    simp [emitLines, reportRow]

theorem reportRow_no_newline (t : Nat × Nat × Nat) :
    ∀ x ∈ reportRow t, StreamItem.isNewline x = false := by
  intro x hx
  simp only [reportRow, List.mem_cons, List.mem_singleton, List.not_mem_nil, or_false] at hx
  rcases hx with rfl | rfl | rfl <;> rfl

theorem reportHead_no_newline :
    ∀ l ∈ reportHead, ∀ x ∈ l, StreamItem.isNewline x = false := by
  decide

theorem reportTail_no_newline (h : DolHeaderRaw) :
    ∀ l ∈ reportTail h, ∀ x ∈ l, StreamItem.isNewline x = false := by
  intro l hl x hx
  simp only [reportTail, List.mem_cons, List.mem_singleton, List.not_mem_nil, or_false] at hl
  rcases hl with rfl | rfl | rfl <;>
    · simp only [List.mem_cons, List.mem_singleton, List.not_mem_nil, or_false] at hx
      rcases hx with rfl | rfl <;> rfl

theorem report_no_newline (h : DolHeaderRaw) (rows : List (Nat × Nat × Nat)) :
    ∀ l ∈ reportHead ++ rows.map reportRow ++ reportTail h,
      ∀ x ∈ l, StreamItem.isNewline x = false := by
  intro l hl
  simp only [List.mem_append, List.mem_map] at hl
  rcases hl with (hl | ⟨t, _, rfl⟩) | hl
  · exact reportHead_no_newline l hl
  · exact reportRow_no_newline t
  · exact reportTail_no_newline h l hl

theorem headerPrint_eq (h : DolHeaderRaw) :
    DolHeaderRaw.print h [] = emitLines (reportHead ++
      (List.range DOL_MAX_SECTION_COUNT).map (fun i => reportRow (h.slotTriple i)) ++
      reportTail h) := by
  simp only [DolHeaderRaw.print, headerPrintRows_eq, emitLines_append]
  simp [emitLines, reportHead, reportTail]

theorem dolPrint_eq (d : Dol) :
    Dol.print d [] = emitLines (reportHead ++
      d.secs.map (fun s => reportRow (s.offset, s.address, s.length)) ++
      reportTail d.hdr) := by
  simp only [Dol.print, dolPrintRows_eq d _ _ (Nat.le_refl _), List.take_length,
    emitLines_append]
  simp [emitLines, reportHead, reportTail]

/-- C13: written to an empty stream, `DolHeaderRaw::print` emits the line
"Sections:", the column-header line (Offset, Address, Size), 18 rows, the row
of slot i showing offsets[i], addresses[i], lengths[i] for i = 0..17 in order,
and three lines for bss address, bss length and entry point: 23 lines;
`Dol::print` emits the same two heading lines, one row per section of the list
in list order showing its offset, address and length, and the three closing
lines from the stored header: secs.size() + 5 lines. -/
theorem C13_report_shape (h : DolHeaderRaw) (d : Dol) :
    streamLines (DolHeaderRaw.print h []) =
      [[.lit "Sections:"], [.width "Offset" 12, .width "Address" 12, .width "Size" 10]] ++
      (List.range 18).map (fun i =>
        [.hexw (h.offsets.getD i 0) 12, .hexw (h.addresses.getD i 0) 12,
         .hexw (h.lengths.getD i 0) 12]) ++
      [[.width ".bss address" 14, .hex h.bss_address],
       [.width ".bss length" 14, .hex h.bss_length],
       [.width "entry point" 14, .hex h.entry_point]] ∧
    (streamLines (DolHeaderRaw.print h [])).length = 23 ∧
    streamLines (Dol.print d []) =
      [[.lit "Sections:"], [.width "Offset" 12, .width "Address" 12, .width "Size" 10]] ++
      d.secs.map (fun s => [.hexw s.offset 12, .hexw s.address 12, .hexw s.length 12]) ++
      [[.width ".bss address" 14, .hex d.hdr.bss_address],
       [.width ".bss length" 14, .hex d.hdr.bss_length],
       [.width "entry point" 14, .hex d.hdr.entry_point]] ∧
    (streamLines (Dol.print d [])).length = d.secs.length + 5 := by
  have h1 : streamLines (DolHeaderRaw.print h []) = reportHead ++
      (List.range DOL_MAX_SECTION_COUNT).map (fun i => reportRow (h.slotTriple i)) ++
      reportTail h := by
    rw [headerPrint_eq]
    apply streamLines_emitLines
    have := report_no_newline h ((List.range DOL_MAX_SECTION_COUNT).map h.slotTriple)
    simpa [List.map_map] using this
  have h2 : streamLines (Dol.print d []) = reportHead ++
      d.secs.map (fun s => reportRow (s.offset, s.address, s.length)) ++
      reportTail d.hdr := by
    rw [dolPrint_eq]
    apply streamLines_emitLines
    have := report_no_newline d.hdr (d.secs.map (fun s => (s.offset, s.address, s.length)))
    simpa [List.map_map] using this
  refine ⟨h1, ?_, h2, ?_⟩
  · rw [h1]
    simp [reportHead, reportTail, DOL_MAX_SECTION_COUNT]
  · rw [h2]
    simp [reportHead, reportTail]

/-! ## C14 -/

theorem readbe32_eq (dol : List Nat) (p : Nat) :
    readbe32 dol p = faultOr (firstFault dol [p]) (be32At dol p) := by
  by_cases h : p + 4 ≤ dol.length
  · have h1 : ¬ dol.length < p + 4 := by omega
    simp [readbe32, be32At, firstFault, faultOr, List.find?_cons, h, h1]
  · have h1 : dol.length < p + 4 := by omega
    simp [readbe32, firstFault, faultOr, List.find?_cons, h, h1]

theorem firstFault_append (dol : List Nat) (ps qs : List Nat) :
    firstFault dol (ps ++ qs) = (firstFault dol ps).or (firstFault dol qs) := by
  simp [firstFault]

theorem readAll_eq (dol : List Nat) :
    ∀ ps, readAll dol ps = faultOr (firstFault dol ps) (ps.map (be32At dol)) := by
  intro ps
  induction ps with
  | nil => rfl
  | cons p ps ih =>
    by_cases h : p + 4 ≤ dol.length
    · have h1 : ¬ dol.length < p + 4 := by omega
      have hf : firstFault dol (p :: ps) = firstFault dol ps := by
        simp [firstFault, List.find?_cons, h1]
      rw [hf]
      simp only [readAll, readbe32_ok dol p h, ih, bind, Except.bind, List.map_cons]
      cases firstFault dol ps <;> rfl
    · have h1 : dol.length < p + 4 := by omega
      have hf : firstFault dol (p :: ps) = some p := by
        simp [firstFault, List.find?_cons, h1]
      rw [hf]
      simp [readAll, readbe32, h, bind, Except.bind, faultOr]

theorem readSlots_eq (dol : List Nat) :
    ∀ n, DolHeaderRaw.readSlots dol n =
      faultOr (firstFault dol ((List.range n).flatMap DolHeaderRaw.slotReads))
        ((List.range n).map (fun i => be32At dol (DOLHDR_OFFSETS_OFF + i * DOLHDR_OFFSET_SIZE)),
         (List.range n).map
           (fun i => be32At dol (DOLHDR_ADDRESSES_OFF + i * DOLHDR_ADDRESS_SIZE)),
         (List.range n).map (fun i => be32At dol (DOLHDR_SIZES_OFF + i * DOLHDR_SIZE_SIZE))) := by
  intro n
  induction n with
  | zero => rfl
  | succ n ih =>
    rw [List.range_succ, List.flatMap_append, firstFault_append, List.flatMap_singleton]
    simp only [DolHeaderRaw.readSlots, ih, bind, Except.bind, readbe32_eq]
    cases hprev : firstFault dol ((List.range n).flatMap DolHeaderRaw.slotReads) with
    | some p => rfl
    | none =>
      simp only [faultOr, Option.or, DolHeaderRaw.slotReads, firstFault, List.find?_cons,
        List.find?_nil, List.map_append, List.map_cons, List.map_nil]
      by_cases ho : dol.length < DOLHDR_OFFSETS_OFF + n * DOLHDR_OFFSET_SIZE + 4
      · simp [ho]
      · by_cases ha : dol.length < DOLHDR_ADDRESSES_OFF + n * DOLHDR_ADDRESS_SIZE + 4
        · simp [ho, ha]
        · by_cases hl : dol.length < DOLHDR_SIZES_OFF + n * DOLHDR_SIZE_SIZE + 4
          · simp [ho, ha, hl]
          · simp [ho, ha, hl]

theorem decode_eq (dol : List Nat) :
    DolHeaderRaw.decode dol = faultOr (firstFault dol DolHeaderRaw.reads) (headerOf dol) := by
  simp only [DolHeaderRaw.decode, readSlots_eq, DolHeaderRaw.reads, firstFault_append, bind,
    Except.bind, readbe32_eq]
  cases hprev : firstFault dol
      ((List.range DOL_MAX_SECTION_COUNT).flatMap DolHeaderRaw.slotReads) with
  | some p => rfl
  | none =>
    simp only [faultOr, Option.or, firstFault, List.find?_cons, List.find?_nil, headerOf]
    by_cases hb : dol.length < DOLHDR_BSSADDR_OFF + 4
    · simp [hb]
    · by_cases hc : dol.length < DOLHDR_BSSLEN_OFF + 4
      · simp [hb, hc]
      · by_cases he : dol.length < DOLHDR_ENTRYPOINT_OFF + 4
        · simp [hb, hc, he]
        · simp [hb, hc, he]

theorem fields_headerOf (dol : List Nat) :
    (headerOf dol).fields = DolHeaderRaw.reads.map (be32At dol) := by
  rfl

/-- The decoder is the run of `readbe32` over `DolHeaderRaw.reads` in order: same
fault at the same address, or else the fields in read order. -/
theorem decode_fields (dol : List Nat) :
    (DolHeaderRaw.decode dol).map DolHeaderRaw.fields = readAll dol DolHeaderRaw.reads := by
  rw [decode_eq, readAll_eq, ← fields_headerOf]
  cases firstFault dol DolHeaderRaw.reads <;> rfl

theorem take_eq_of_agree (dol1 dol2 : List Nat) (n : Nat) (h1 : n ≤ dol1.length)
    (h2 : n ≤ dol2.length) (hagree : ∀ i, i < n → dol1.getD i 0 = dol2.getD i 0) :
    dol1.take n = dol2.take n := by
  apply List.ext_getElem?
  intro i
  by_cases hi : i < n
  · have hi1 : i < dol1.length := by omega
    have hi2 : i < dol2.length := by omega
    have := hagree i hi
    rw [List.getD_eq_getElem _ _ hi1, List.getD_eq_getElem _ _ hi2] at this
    rw [List.getElem?_take_of_lt hi, List.getElem?_take_of_lt hi,
      List.getElem?_eq_getElem hi1, List.getElem?_eq_getElem hi2, this]
  · rw [List.getElem?_eq_none (by rw [List.length_take]; omega),
      List.getElem?_eq_none (by rw [List.length_take]; omega)]

theorem reads_in_extent : ∀ p ∈ DolHeaderRaw.reads, p + 4 ≤ 0xE4 := by
  decide

theorem reads_cover : ∀ b, b < 0xE4 → ∃ p ∈ DolHeaderRaw.reads, p ≤ b ∧ b < p + 4 := by
  decide

/-- C14: the decoder is the run of 57 four-byte reads at the addresses
`DolHeaderRaw.reads` in that order (18 times offset, address, length, then bss
address, bss length and entry point); their byte ranges are pairwise disjoint
and their union is exactly [0, 0xE4); so on every buffer of at least 228 bytes
every read is in bounds and the decoder yields a header, and that header
depends on no byte at index 228 or above. -/
theorem C14_read_layout (dol : List Nat) :
    (DolHeaderRaw.decode dol).map DolHeaderRaw.fields = readAll dol DolHeaderRaw.reads ∧
    DolHeaderRaw.reads.length = 57 ∧
    DolHeaderRaw.reads.Pairwise (fun p q => p + 4 ≤ q ∨ q + 4 ≤ p) ∧
    (∀ b, b < 0xE4 ↔ ∃ p ∈ DolHeaderRaw.reads, p ≤ b ∧ b < p + 4) ∧
    (228 ≤ dol.length →
      (∀ p ∈ DolHeaderRaw.reads, p + 4 ≤ dol.length) ∧
      (∃ hdr, DolHeaderRaw.decode dol = .ok hdr) ∧
      ∀ dol2 : List Nat, 228 ≤ dol2.length → (∀ i, i < 228 → dol2.getD i 0 = dol.getD i 0) →
        DolHeaderRaw.decode dol2 = DolHeaderRaw.decode dol) := by
  refine ⟨decode_fields dol, by decide, by decide, ?_, ?_⟩
  · intro b
    constructor
    · exact reads_cover b
    · intro ⟨p, hp, _, hlt⟩
      have := reads_in_extent p hp
      omega
  · intro hlen
    refine ⟨?_, ⟨_, decode_ok dol hlen⟩, ?_⟩
    · intro p hp
      have := reads_in_extent p hp
      omega
    · intro dol2 hlen2 hagree
      rw [← decode_take dol2, ← decode_take dol]
      exact congrArg DolHeaderRaw.decode
        (take_eq_of_agree dol2 dol DOLHDR_EXTENT hlen2 hlen hagree)

theorem C14_read_layout_witness :
    228 ≤ sampleDol.length ∧ 228 ≤ (sampleDol ++ [9, 9, 9]).length ∧
    (∀ i, i < 228 → (sampleDol ++ [9, 9, 9]).getD i 0 = sampleDol.getD i 0) ∧
    (∀ p ∈ DolHeaderRaw.reads, p + 4 ≤ sampleDol.length) ∧
    (∃ hdr, DolHeaderRaw.decode sampleDol = .ok hdr) ∧
    DolHeaderRaw.decode (sampleDol ++ [9, 9, 9]) = DolHeaderRaw.decode sampleDol :=
  ⟨by decide, by decide, by decide,
    ((C14_read_layout sampleDol).2.2.2.2 (by decide)).1,
    ((C14_read_layout sampleDol).2.2.2.2 (by decide)).2.1,
    ((C14_read_layout sampleDol).2.2.2.2 (by decide)).2.2 (sampleDol ++ [9, 9, 9])
      (by decide) (by decide)⟩

end ninutils
